import Mathlib

/-!
Verification of the peer message processing core of `src/main.cpp`
(BitcoinUnlimited network layer).  The C++ handlers are shallowly embedded
as pure Lean functions over explicit state records; external collaborators
(request manager internals, hash functions, clocks, validation) enter as
explicit arguments or oracle functions.
-/

namespace BUnet

/-- Block hashes are modelled as naturals; `0` plays the role of the
all-zero (`IsNull`) `uint256`. -/
abbrev Hash := Nat

/-- Peer ids, as in `NodeId`. -/
abbrev NodeId := Nat

/-! ## Pong handler (`ProcessMessage`, `NetMsgType::PONG` branch) -/

/-- The peer-state fields touched by the PONG branch of `ProcessMessage`:
`nPingNonceSent`, `nPingUsecStart`, `nPingUsecTime`, `nMinPingUsecTime`. -/
structure PingState where
  nPingNonceSent : Nat
  nPingUsecStart : Int
  nPingUsecTime : Int
  nMinPingUsecTime : Int
deriving DecidableEq, Repr

/-- Result of the PONG branch: the updated ping fields plus the `sProblem`
string that the handler would log (empty when nothing is logged). -/
structure PongResult where
  state : PingState
  sProblem : String
deriving DecidableEq, Repr

/-- The PONG branch of `ProcessMessage` (src/main.cpp:2207-2272).
`nTimeReceived` is the message arrival time (`pingUsecEnd`); `payload` is
`some nonce` when at least `sizeof(nonce)` bytes are available, `none` for a
short payload. -/
def processPong (ps : PingState) (nTimeReceived : Int) (payload : Option Nat) : PongResult :=
  let pingUsecEnd := nTimeReceived
  match payload with
  | none =>
      -- short payload: cancel this ping
      { state := { ps with nPingNonceSent := 0 }, sProblem := "Short payload" }
  | some nonce =>
      if ps.nPingNonceSent ≠ 0 then
        if nonce = ps.nPingNonceSent then
          let pingUsecTime := pingUsecEnd - ps.nPingUsecStart
          if pingUsecTime > 0 then
            let ps' : PingState :=
              { ps with
                nPingNonceSent := 0
                nPingUsecTime := pingUsecTime
                nMinPingUsecTime := min ps.nMinPingUsecTime pingUsecTime }
            { state := ps', sProblem := "" }
          else
            { state := { ps with nPingNonceSent := 0 }, sProblem := "Timing mishap" }
        else
          if nonce = 0 then
            { state := { ps with nPingNonceSent := 0 }, sProblem := "Nonce zero" }
          else
            { state := ps, sProblem := "Nonce mismatch" }
      else
        { state := ps, sProblem := "Unsolicited pong without ping" }

/-! ## Filteradd handler (`ProcessMessage`, `NetMsgType::FILTERADD` branch) -/

/-- `MAX_SCRIPT_ELEMENT_SIZE` (520 bytes), the cap on a `filteradd` data
element. -/
def MAX_SCRIPT_ELEMENT_SIZE : Nat := 520

/-- The peer bloom filter is modelled abstractly as the list of data
elements inserted so far; `none` models a null `pfilter`. -/
abbrev PeerFilter := Option (List (List Nat))

/-- Result of the FILTERADD branch: updated filter, misbehavior points
charged by this message, and the handler's return value. -/
structure FilterAddResult where
  filter : PeerFilter
  misbehavior : Nat
  ok : Bool
deriving DecidableEq, Repr

/-- The FILTERADD branch of `ProcessMessage` (src/main.cpp:2296-2315).
`vData` is the decoded data element. -/
def processFilterAdd (filter : PeerFilter) (vData : List Nat) : FilterAddResult :=
  if vData.length > MAX_SCRIPT_ELEMENT_SIZE then
    { filter := filter, misbehavior := 100, ok := true }
  else
    match filter with
    | some elems => { filter := some (elems ++ [vData]), misbehavior := 0, ok := true }
    | none => { filter := none, misbehavior := 100, ok := true }

/-! ## Version handler (`ProcessMessage`, `NetMsgType::VERSION` branch) -/

/-- Messages pushed to the peer by the VERSION branch. -/
inductive OutMsg where
  | rejectDuplicateVersion
  | rejectObsolete
  | pushVersion
  | verack
  | getaddr
deriving DecidableEq, Repr

/-- Decoded `version` payload.  The trailing fields are optional on the
wire (`if (!vRecv.empty()) ...`); `nNonce` is initialised to 1 when the
`addrFrom`/nonce pair is absent (`uint64_t nNonce = 1;`). -/
structure VersionMsg where
  nVersion : Int
  nServices : Nat
  nTime : Int
  addrMe : Nat
  addrFromNonce : Option (Nat × Nat)
  subVer : Option String
  startingHeight : Option Int
  relayTxes : Option Bool
deriving DecidableEq, Repr

/-- The nonce actually decoded from a `version` payload. -/
def VersionMsg.nonce (m : VersionMsg) : Nat :=
  match m.addrFromNonce with
  | some p => p.2
  | none => 1

/-- Node-side configuration read by the VERSION branch. -/
structure VersionCfg where
  minProtoVersion : Int       -- MIN_PEER_PROTO_VERSION
  caddrTimeVersion : Int      -- CADDR_TIME_VERSION
  nLocalHostNonce : Nat
  fListen : Bool
  ibd : Bool                  -- IsInitialBlockDownload()
  addrmanSize : Nat
  localAddrRoutable : Bool    -- GetLocalAddress(..).IsRoutable()
  peerAddrLocalGood : Bool    -- IsPeerAddrLocalGood(pfrom)
deriving DecidableEq, Repr

/-- The peer fields read or written by the VERSION branch. -/
structure VersionPeer where
  nVersion : Int              -- 0 until a version message was received
  fInbound : Bool
  fOneShot : Bool
  fFeeler : Bool
deriving DecidableEq, Repr

/-- Observable outcome of the VERSION branch. -/
structure VersionResult where
  ok : Bool
  fDisconnect : Bool
  misbehavior : Nat
  pushed : List OutMsg
  addrQueuedToPeer : Bool     -- pfrom->PushAddress of our local address
deriving DecidableEq, Repr

/-- The VERSION branch of `ProcessMessage` (src/main.cpp:1018-1148).
Duplicate version ⇒ reject + disconnect + failure; obsolete protocol ⇒
reject + 100 points + failure; a nonce equal to `nLocalHostNonce` and
greater than 1 ⇒ silent disconnect with success; otherwise the handshake
continues (version push for inbound peers, verack, optional getaddr), with
a disconnect only for the improper inbound-feeler case. -/
def processVersion (cfg : VersionCfg) (st : VersionPeer) (msg : VersionMsg) : VersionResult :=
  if st.nVersion ≠ 0 then
    { ok := false, fDisconnect := true, misbehavior := 0,
      pushed := [OutMsg.rejectDuplicateVersion], addrQueuedToPeer := false }
  else if msg.nVersion < cfg.minProtoVersion then
    { ok := false, fDisconnect := false, misbehavior := 100,
      pushed := [OutMsg.rejectObsolete], addrQueuedToPeer := false }
  else
    let nVersion := if msg.nVersion = 10300 then (300 : Int) else msg.nVersion
    let nNonce := msg.nonce
    if nNonce = cfg.nLocalHostNonce ∧ nNonce > 1 then
      -- connected to self: disconnect, return true
      { ok := true, fDisconnect := true, misbehavior := 0,
        pushed := [], addrQueuedToPeer := false }
    else
      let pushed₁ := if st.fInbound then [OutMsg.pushVersion] else []
      let pushed₂ := pushed₁ ++ [OutMsg.verack]
      let advertise := ¬ st.fInbound ∧ cfg.fListen ∧ ¬ cfg.ibd ∧
        (cfg.localAddrRoutable ∨ cfg.peerAddrLocalGood)
      let wantGetaddr := ¬ st.fInbound ∧
        (st.fOneShot ∨ nVersion ≥ cfg.caddrTimeVersion ∨ cfg.addrmanSize < 1000)
      let pushed₃ := pushed₂ ++ (if wantGetaddr then [OutMsg.getaddr] else [])
      let feelerDisconnect := st.fFeeler ∧ ¬ st.fInbound
      { ok := true, fDisconnect := feelerDisconnect, misbehavior := 0,
        pushed := pushed₃, addrQueuedToPeer := advertise }

/-! ## Getdata block serving (`ProcessGetData`, block-class inventory) -/

/-- Inventory type tags (protocol values). -/
def MSG_TX : Nat := 1
def MSG_BLOCK : Nat := 2
def MSG_FILTERED_BLOCK : Nat := 3
def MSG_THINBLOCK : Nat := 4

/-- One month in seconds (`nOneMonth` in `ProcessGetData`). -/
def nOneMonth : Int := 30 * 24 * 60 * 60

/-- One week in seconds (`nOneWeek` in `ProcessGetData`). -/
def nOneWeek : Int := 7 * 24 * 60 * 60

/-- The `mapBlockIndex` facts about the requested block that
`ProcessGetData` consults. -/
structure BlockIndexEntry where
  onActiveChain : Bool        -- chainActive.Contains(mi->second)
  validScripts : Bool         -- mi->second->IsValid(BLOCK_VALID_SCRIPTS)
  nTime : Int                 -- mi->second->GetBlockTime()
  excessive : Bool            -- mi->second->nStatus & BLOCK_EXCESSIVE
  haveData : Bool             -- mi->second->nStatus & BLOCK_HAVE_DATA
deriving DecidableEq, Repr

/-- Environment of the block-serving decision in `ProcessGetData`. -/
structure GetDataEnv where
  bestHeaderTime : Option Int -- pindexBestHeader (none = NULL) and its GetBlockTime()
  powEquivTime : Int          -- GetBlockProofEquivalentTime(bestHeader, block, bestHeader, params)
  outboundTargetReached : Bool
  whitelisted : Bool
  readFromDiskOk : Bool       -- ReadBlockFromDisk succeeded
  filterLoaded : Bool         -- pfrom->pfilter != nullptr
deriving DecidableEq, Repr

/-- Outcome of one block-class `getdata` item. -/
structure GetDataResult where
  served : Bool               -- a block / merkleblock / thinblock was pushed
  fDisconnect : Bool
deriving DecidableEq, Repr

/-- The block-class part of `ProcessGetData` (src/main.cpp:758-815) for one
inventory item of type MSG_BLOCK, MSG_FILTERED_BLOCK or MSG_THINBLOCK.
`entry` is the `mapBlockIndex` lookup result (`none` = not found). -/
def processGetDataBlock (env : GetDataEnv) (invType : Nat)
    (entry : Option BlockIndexEntry) : GetDataResult :=
  match entry with
  | none => { served := false, fDisconnect := false }
  | some e =>
      let fSend₀ :=
        if e.onActiveChain then true
        else
          let recentEnough := e.validScripts ∧ env.bestHeaderTime.isSome ∧
            (env.bestHeaderTime.getD 0 - e.nTime < nOneMonth) ∧
            (env.powEquivTime < nOneMonth)
          if recentEnough then
            -- don't relay excessive blocks that are not on the active chain
            ¬ e.excessive
          else
            false
      let historical := (env.bestHeaderTime.isSome ∧
          env.bestHeaderTime.getD 0 - e.nTime > nOneWeek) ∨ invType = MSG_FILTERED_BLOCK
      let limitHit := fSend₀ ∧ env.outboundTargetReached ∧ historical ∧ ¬ env.whitelisted
      let fSend := if limitHit then false else fSend₀
      let fDisconnect := limitHit
      let pushes := fSend ∧ e.haveData ∧ env.readFromDiskOk ∧
        (invType = MSG_FILTERED_BLOCK → env.filterLoaded)
      { served := decide pushes, fDisconnect := fDisconnect }

/-! ## Inv handler (`ProcessMessage`, `NetMsgType::INV` branch) -/

/-- `MAX_INV_SZ` (50000). -/
def MAX_INV_SZ : Nat := 50000

/-- One `CInv` entry; a hash of 0 models a null `uint256`. -/
structure InvVect where
  invType : Nat
  hash : Hash
deriving DecidableEq, Repr

/-- Environment and oracles consulted while processing one `inv` message.
`sendSizeAfter i` is the value of `pfrom->nSendSize` observed at the flood
check after the `i`-th entry (0-based) has been handled; the send size is
mutated concurrently by the network layer, so it enters as an oracle. -/
structure InvEnv where
  fImporting : Bool
  fReindex : Bool
  alreadyHaveBlock : Hash → Bool
  txAlreadyHave : Hash → Bool
  ibd : Bool                  -- IsInitialBlockDownload()
  regtest : Bool              -- Params().NetworkIDString() == "regtest"
  blocksOnlyFlag : Bool       -- -blocksonly
  whitelisted : Bool
  whitelistRelay : Bool       -- -whitelistrelay
  sendBufferSize : Nat        -- SendBufferSize()
  sendSizeAfter : Nat → Nat

/-- Observable outcome of the INV branch. -/
structure InvResult where
  ok : Bool
  misbehavior : Nat
  processed : Nat             -- number of loop iterations entered
  availUpdates : List Hash    -- requester.UpdateBlockAvailability calls
  getheadersPushed : List Hash -- GETHEADERS stop hashes pushed
  askFor : List Hash          -- requester.AskFor calls
deriving Repr

/-- The per-entry loop of the INV branch (src/main.cpp:1352-1425).
`n` is the absolute index of the next entry (feeding `sendSizeAfter`). -/
def processInvLoop (env : InvEnv) (fBlocksOnly : Bool) :
    List InvVect → Nat → List Hash → List Hash → List Hash → InvResult
  | [], _, avail, gh, ask =>
      { ok := true, misbehavior := 0, processed := 0,
        availUpdates := avail, getheadersPushed := gh, askFor := ask }
  | inv :: rest, n, avail, gh, ask =>
      if ¬ (inv.invType = MSG_TX ∨ inv.invType = MSG_BLOCK) ∨ inv.hash = 0 then
        { ok := false, misbehavior := 20, processed := 1,
          availUpdates := avail, getheadersPushed := gh, askFor := ask }
      else
        let fAlreadyHaveBlock := env.alreadyHaveBlock inv.hash
        let avail' := if inv.invType = MSG_BLOCK then avail ++ [inv.hash] else avail
        let gh' :=
          if inv.invType = MSG_BLOCK ∧
              ((¬ fAlreadyHaveBlock ∧ ¬ env.ibd) ∨ (¬ fAlreadyHaveBlock ∧ env.regtest)) then
            gh ++ [inv.hash]
          else gh
        let ask' :=
          if inv.invType ≠ MSG_BLOCK ∧ ¬ fBlocksOnly ∧
              ¬ env.txAlreadyHave inv.hash ∧ ¬ env.ibd then
            ask ++ [inv.hash]
          else ask
        if env.sendSizeAfter n > env.sendBufferSize * 2 then
          { ok := false, misbehavior := 50, processed := 1,
            availUpdates := avail', getheadersPushed := gh', askFor := ask' }
        else
          let r := processInvLoop env fBlocksOnly rest (n + 1) avail' gh' ask'
          { r with processed := r.processed + 1 }

/-- The INV branch of `ProcessMessage` (src/main.cpp:1328-1425). -/
def processInv (env : InvEnv) (vInv : List InvVect) : InvResult :=
  if env.fImporting ∨ env.fReindex then
    { ok := true, misbehavior := 0, processed := 0,
      availUpdates := [], getheadersPushed := [], askFor := [] }
  else if vInv.length > MAX_INV_SZ ∨ vInv.isEmpty then
    { ok := false, misbehavior := 20, processed := 0,
      availUpdates := [], getheadersPushed := [], askFor := [] }
  else
    let fBlocksOnly := env.blocksOnlyFlag ∧ ¬ (env.whitelisted ∧ env.whitelistRelay)
    processInvLoop env fBlocksOnly vInv 0 [] [] []

/-! ## Outer message loop (`ProcessMessages`) -/

/-- One framed message from the peer's receive queue, reduced to the
envelope facts `ProcessMessages` checks. -/
structure NetMessage where
  complete : Bool
  magicOk : Bool              -- memcmp(msg.hdr.pchMessageStart, magic) == 0
  headerValid : Bool          -- hdr.IsValid(magic)
  checksumOk : Bool
deriving DecidableEq, Repr

/-- Environment of `ProcessMessages`.  `sendSizeAt i` is `pfrom->nSendSize`
observed at the loop condition before the `i`-th iteration; `handler i` is
the pair (return value, whether `ProcessMessage` set `fDisconnect`) of the
`i`-th dispatched message. -/
structure PMEnv where
  whitelisted : Bool
  sendBufferSize : Nat
  sendSizeAt : Nat → Nat
  handler : Nat → Bool × Bool

/-- Observable outcome of `ProcessMessages`. -/
structure PMResult where
  fOk : Bool
  bans : Nat                  -- dosMan.Ban calls (the 4-hour envelope ban)
  fDisconnect : Bool
  dispatched : Nat            -- messages handed to ProcessMessage
deriving DecidableEq, Repr

/-- The message loop of `ProcessMessages` (src/main.cpp:2412-2556).
`iter` counts loop iterations (feeding `sendSizeAt`), `disp` counts
dispatched messages (feeding `handler`), `msgsProcessed` mirrors the C++
counter. -/
def processMessagesLoop (env : PMEnv) :
    List NetMessage → Nat → Nat → Nat → Bool → Nat → PMResult
  | msgs, iter, disp, msgsProcessed, fDisconnect, bans =>
      if fDisconnect ∨ ¬ (env.sendSizeAt iter < env.sendBufferSize) then
        { fOk := true, bans := bans, fDisconnect := fDisconnect, dispatched := disp }
      else
        match msgs with
        | [] => { fOk := true, bans := bans, fDisconnect := fDisconnect, dispatched := disp }
        | msg :: rest =>
            if ¬ msg.complete then
              { fOk := true, bans := bans, fDisconnect := fDisconnect, dispatched := disp }
            else
              let msgsProcessed' := msgsProcessed + 1
              if ¬ msg.magicOk then
                { fOk := false,
                  bans := bans + (if env.whitelisted then 0 else 1),
                  fDisconnect := fDisconnect, dispatched := disp }
              else if ¬ msg.headerValid then
                processMessagesLoop env rest (iter + 1) disp msgsProcessed' fDisconnect bans
              else if ¬ msg.checksumOk then
                processMessagesLoop env rest (iter + 1) disp msgsProcessed' fDisconnect bans
              else
                let h := env.handler disp
                let fDisconnect' := fDisconnect ∨ h.2
                if msgsProcessed' > 2000 then
                  { fOk := true, bans := bans, fDisconnect := fDisconnect',
                    dispatched := disp + 1 }
                else
                  processMessagesLoop env rest (iter + 1) (disp + 1) msgsProcessed'
                    fDisconnect' bans

/-- `ProcessMessages` entry point (getdata-queue drain elided: it does not
affect the return value, bans, or disconnects). -/
def processMessages (env : PMEnv) (msgs : List NetMessage) (fDisconnect : Bool) : PMResult :=
  processMessagesLoop env msgs 0 0 0 fDisconnect 0

/-! ## FinalizeNode (src/main.cpp:167-196) -/

/-- The `CNodeState` fields `FinalizeNode` reads. -/
structure CNodeStateR where
  fSyncStarted : Bool
  fPreferredDownload : Bool
deriving DecidableEq, Repr

/-- The shared state `FinalizeNode` touches: the nodestate map, the
`nSyncStarted` and `nPreferredDownload` counters, and the request manager's
in-flight map and per-hash last-request times. -/
structure NetGlobalState where
  nodeStates : List (NodeId × CNodeStateR)
  nSyncStarted : Int
  nPreferredDownload : Int
  inFlight : List (Hash × NodeId)
  lastBlockRequestTime : List (Hash × Int)
deriving DecidableEq, Repr

/-- Association-list lookup keyed on the first component (both the
nodestate map and the request-time map are used this way). -/
def assocLookup {β : Type} (k : Nat) : List (Nat × β) → Option β
  | [] => none
  | q :: t => if q.1 = k then some q.2 else assocLookup k t

/-- Modelled from the spec: `requester.GetBlocksInFlight(v, nodeid)`
(declared in requestManager.h, implementation not under src/) collects the
hashes of all in-flight entries of this node. -/
def getBlocksInFlight (g : NetGlobalState) (nodeid : NodeId) : List Hash :=
  (g.inFlight.filter (fun e => e.2 = nodeid)).map (fun e => e.1)

/-- Modelled from the spec: `requester.MapBlocksInFlightErase(hash, nodeid)`
erases the in-flight row of this (hash, node) pair. -/
def mapBlocksInFlightErase (fl : List (Hash × NodeId)) (h : Hash) (nodeid : NodeId) :
    List (Hash × NodeId) :=
  fl.filter (fun e => ¬ (e.1 = h ∧ e.2 = nodeid))

/-- Modelled from the spec: `requester.ResetLastBlockRequestTime(hash)`
resets the request time of this hash to zero so that another peer may be
asked immediately. -/
def resetLastBlockRequestTime (tl : List (Hash × Int)) (h : Hash) : List (Hash × Int) :=
  tl.map (fun p => if p.1 = h then (p.1, (0 : Int)) else p)

/-- `FinalizeNode` (src/main.cpp:167-196).  The two `DbgAssert` calls at
the end are modelled with their production recovery actions: when the
nodestate map became empty, a non-empty in-flight map is force-cleared and
a non-zero preferred-download counter is force-zeroed. -/
def FinalizeNode (g : NetGlobalState) (nodeid : NodeId) : NetGlobalState :=
  match assocLookup nodeid g.nodeStates with
  | none => g
  | some st =>
      let nSync := if st.fSyncStarted then g.nSyncStarted - 1 else g.nSyncStarted
      let v := getBlocksInFlight g nodeid
      -- the C++ loop erases the in-flight row and resets the request time of
      -- each hash in one pass; the two updates touch disjoint maps and are
      -- folded separately here
      let flE := v.foldl (fun acc h => mapBlocksInFlightErase acc h nodeid) g.inFlight
      let tlR := v.foldl resetLastBlockRequestTime g.lastBlockRequestTime
      let pref := g.nPreferredDownload - (if st.fPreferredDownload then 1 else 0)
      let ns := g.nodeStates.filter (fun q => ¬ (q.1 = nodeid))
      let fl := if ns.isEmpty then (if flE.isEmpty then flE else []) else flE
      let pref' := if ns.isEmpty then (if pref = 0 then pref else 0) else pref
      { nodeStates := ns, nSyncStarted := nSync, nPreferredDownload := pref',
        inFlight := fl, lastBlockRequestTime := tlR }

/-! ## Headers handler (`ProcessMessage`, `NetMsgType::HEADERS` branch) -/

/-- `MAX_HEADERS_RESULTS` (2000). -/
def MAX_HEADERS_RESULTS : Nat := 2000

/-- A block header reduced to the fields the HEADERS branch consults:
the predecessor hash, the header's own hash (`GetHash()`, an external
double-SHA256, carried here as data), and the timestamp. -/
structure CBlockHeader where
  hashPrevBlock : Hash
  hashSelf : Hash
  nTime : Int
deriving DecidableEq, Repr

/-- `mapUnConnectedHeaders`: hash ↦ (header, arrival time), kept sorted by
key to model the `std::map` iteration order. -/
abbrev HeaderCache := List (Hash × CBlockHeader × Int)

/-- `mapUnConnectedHeaders[hash] = ...`: sorted insert, overwriting an
existing key. -/
def cacheInsert (c : HeaderCache) (k : Hash) (v : CBlockHeader × Int) : HeaderCache :=
  match c with
  | [] => [(k, v)]
  | e :: t =>
      if k < e.1 then (k, v) :: e :: t
      else if k = e.1 then (k, v) :: t
      else e :: cacheInsert t k v

/-- The running `hashLastBlock` update at the top of the header walk: while
`hashLastBlock` is null, a header whose previous block is in `mapBlockIndex`
resolves it. -/
def scanStep (index : List Hash) (last : Hash) (h : CBlockHeader) : Hash :=
  if last = 0 ∧ h.hashPrevBlock ∈ index then h.hashPrevBlock else last

/-- Outcome of the continuity walk over a `headers` payload. -/
structure ScanOut where
  disconnect : Bool
  fNew : Bool                 -- fNewUnconnectedHeaders
  cache : HeaderCache
  avail : List Hash           -- availability updates issued during the walk
deriving DecidableEq, Repr

/-- The continuity walk of the HEADERS branch (src/main.cpp:1644-1687):
detect the first header that does not connect, disconnect if such an
out-of-order header is older than a day, and move the headers from the
discontinuity onward into the unconnected-header cache (while below the
cache cap), updating peer block availability for each. -/
def headersScanLoop (adjTime tNow : Int) (maxUnconn : Nat) (index : List Hash) :
    List CBlockHeader → Hash → Bool → HeaderCache → List Hash → ScanOut
  | [], _, fNew, cache, avail => ⟨false, fNew, cache, avail⟩
  | hdr :: rest, hashLast, fNew, cache, avail =>
      let hashLast' := scanStep index hashLast hdr
      if hdr.hashPrevBlock ≠ hashLast' ∧ hdr.nTime < adjTime - 24 * 60 * 60 then
        ⟨true, fNew, cache, avail⟩
      else
        let fNew' := fNew || decide (hdr.hashPrevBlock ≠ hashLast')
        let cache' :=
          if fNew' then
            (if cache.length < maxUnconn then cacheInsert cache hdr.hashSelf (hdr, tNow)
             else cache)
          else cache
        let avail' := if fNew' then avail ++ [hdr.hashSelf] else avail
        headersScanLoop adjTime tNow maxUnconn index rest hdr.hashSelf fNew' cache' avail'

/-- One pass of the unconnected-cache extension loop
(src/main.cpp:1690-1723): walk the cache in key order; on the first entry
whose `hashPrevBlock` equals the current tail hash, report it together with
the remaining cache; otherwise drop expired entries and entries whose hash
already occurs among the headers, and keep the rest. -/
def extendScanOnce (tNow timeout : Int) (hs : List CBlockHeader) :
    HeaderCache → HeaderCache → Except HeaderCache (CBlockHeader × HeaderCache)
  | done, [] => Except.error done
  | done, e :: todo =>
      if (hs.getLastD ⟨0, 0, 0⟩).hashSelf = e.2.1.hashPrevBlock then
        Except.ok (e.2.1, done ++ todo)
      else if tNow - e.2.2 ≥ timeout then
        extendScanOnce tNow timeout hs done todo
      else if hs.any (fun h => h.hashSelf = e.1) then
        extendScanOnce tNow timeout hs done todo
      else
        extendScanOnce tNow timeout hs (done ++ [e]) todo

/-- The extension loop: each matching cache entry is appended to the
headers and scanning restarts from the beginning of the (shrunken) cache,
exactly as the C++ `mi = mapUnConnectedHeaders.begin()` restart.  `fuel`
bounds the number of restarts; a restart consumes a cache entry, so
`cache.length + 1` fuel always reaches the no-match fixed point. -/
def extendLoop (tNow timeout : Int) :
    Nat → List CBlockHeader → HeaderCache → List CBlockHeader × HeaderCache
  | 0, hs, cache => (hs, cache)
  | fuel + 1, hs, cache =>
      match extendScanOnce tNow timeout hs [] cache with
      | Except.error cache' => (hs, cache')
      | Except.ok (hdr, cache') => extendLoop tNow timeout fuel (hs ++ [hdr]) cache'

/-- Result of the external `AcceptBlockHeader` call: either the index entry
for the accepted header (identified by its hash) or a rejection carrying
`state.IsInvalid(nDos)` (`none` when the state is not invalid). -/
inductive AcceptResult where
  | accepted (idx : Hash)
  | rejected (dosState : Option Nat)
deriving DecidableEq, Repr

/-- Outcome of the acceptance loop. -/
structure AcceptOut where
  nAccepted : Nat
  pindexLast : Option Hash
  dos : Nat                   -- misbehavior points charged
  truncated : Bool            -- headers were erased from the failure on
deriving DecidableEq, Repr

/-- The acceptance loop of the HEADERS branch (src/main.cpp:1726-1755):
accept headers oldest-first; on a failure charge the DoS score (when the
validation state is invalid with positive score) and truncate. -/
def acceptLoopGo (acceptFn : CBlockHeader → AcceptResult) :
    List CBlockHeader → Nat → Option Hash → AcceptOut
  | [], cnt, last => ⟨cnt, last, 0, false⟩
  | hdr :: rest, cnt, last =>
      match acceptFn hdr with
      | AcceptResult.accepted idx => acceptLoopGo acceptFn rest (cnt + 1) (some idx)
      | AcceptResult.rejected st =>
          ⟨cnt, last,
            (match st with
             | some d => if 0 < d then d else 0
             | none => 0),
            true⟩

/-- Observable outcome of the HEADERS branch. -/
structure HeadersResult where
  ok : Bool
  fDisconnect : Bool
  misbehavior : Nat
  cache : HeaderCache         -- mapUnConnectedHeaders afterwards
  availUpdates : List Hash    -- requester.UpdateBlockAvailability calls
  acceptedCount : Nat
  pindexLast : Option Hash
  nCountFinal : Nat           -- the C++ nCount variable after the loop
  sentGetHeaders : Bool       -- the follow-up getheaders was pushed
  syncStartReset : Bool       -- state->nSyncStartTime was reset
  ibdAvailBroadcast : Bool    -- the IBD block-availability refresh ran
deriving DecidableEq, Repr

/-- The HEADERS branch of `ProcessMessage` (src/main.cpp:1605-1901):
size gate, continuity walk, unconnected-cache extension, acceptance loop,
and the full-batch follow-up `getheaders` with sync-timer reset.  The
constants `MAX_UNCONNECTED_HEADERS` and `UNCONNECTED_HEADERS_TIMEOUT` are
defined in main.h (not under src/) and are taken as the parameters
`maxUnconn` and `timeout`; `AcceptBlockHeader` is external and enters as
`acceptFn` (`pindexLast` is left unchanged when it fails). -/
def processHeadersMessage (ibd : Bool) (index : List Hash) (cache₀ : HeaderCache)
    (adjTime tNow : Int) (maxUnconn : Nat) (timeout : Int)
    (acceptFn : CBlockHeader → AcceptResult) (headers : List CBlockHeader) : HeadersResult :=
  let nCount := headers.length
  if nCount > MAX_HEADERS_RESULTS then
    ⟨false, false, 20, cache₀, [], 0, none, nCount, false, false, false⟩
  else if nCount = 0 then
    ⟨true, false, 0, cache₀, [], 0, none, nCount, false, false, false⟩
  else
    let s := headersScanLoop adjTime tNow maxUnconn index headers 0 false cache₀ []
    if s.disconnect then
      ⟨false, true, 0, s.cache, s.avail, 0, none, nCount, false, false, false⟩
    else if s.fNew then
      ⟨true, false, 0, s.cache, s.avail, 0, none, nCount, false, false, false⟩
    else
      let ec := extendLoop tNow timeout (s.cache.length + 1) headers s.cache
      let a := acceptLoopGo acceptFn ec.1 0 none
      let nCount' := if a.truncated then a.nAccepted else nCount
      let availLast := match a.pindexLast with | some i => [i] | none => []
      let sent := nCount' = MAX_HEADERS_RESULTS ∧ a.pindexLast.isSome = true
      ⟨true, false, a.dos, ec.2, s.avail ++ availLast, a.nAccepted, a.pindexLast, nCount',
        decide sent, decide sent, decide (sent ∧ ibd = true)⟩

/-! ### Declarative chain predicates used to state the headers claims -/

/-- The header list walks contiguously under the scan's `hashLastBlock`
discipline, starting from `last`. -/
def contiguousB (index : List Hash) : Hash → List CBlockHeader → Bool
  | _, [] => true
  | last, h :: t =>
      (h.hashPrevBlock = scanStep index last h) && contiguousB index h.hashSelf t

/-- No header of the list is both out of order (under the scan discipline)
and older than `adjTime` minus one day. -/
def noOldBreakB (index : List Hash) (adjTime : Int) : Hash → List CBlockHeader → Bool
  | _, [] => true
  | last, h :: t =>
      (h.hashPrevBlock = scanStep index last h ∨ ¬ (h.nTime < adjTime - 24 * 60 * 60)) &&
        noOldBreakB index adjTime h.hashSelf t

/-- The `hashLastBlock` value after walking a contiguous list. -/
def endHash (last : Hash) : List CBlockHeader → Hash
  | [] => last
  | h :: t => endHash h.hashSelf t

/-- A contiguous chain of headers `⟨s, s+1, 50⟩, ⟨s+1, s+2, 50⟩, …` used as
concrete test data. -/
def chainFrom (s : Nat) : Nat → List CBlockHeader
  | 0 => []
  | n + 1 => ⟨s, s + 1, 50⟩ :: chainFrom (s + 1) n

/-- A cache holding the two headers continuing a 1999-header chain. -/
def cornerCache : HeaderCache :=
  [(2000, ⟨1999, 2000, 50⟩, 0), (2001, ⟨2000, 2001, 50⟩, 0)]

/-- An acceptance oracle that accepts exactly the headers with hash
at most 2000. -/
def cornerAccept : CBlockHeader → AcceptResult := fun h =>
  if h.hashSelf ≤ 2000 then AcceptResult.accepted h.hashSelf
  else AcceptResult.rejected (some 0)

/-! ## Claims as stated (for refutation) and concrete test environments -/

/-- The pong claim as stated: while a ping is outstanding, a matching pong
records the round-trip time (last and minimum) and clears the outstanding
nonce; a non-zero mismatching pong logs "Nonce mismatch" and leaves the
outstanding nonce in place. -/
def pongClaimAsStated : Prop :=
  ∀ (ps : PingState) (t : Int) (nonce : Nat),
    ps.nPingNonceSent ≠ 0 →
    ((nonce = ps.nPingNonceSent →
        (processPong ps t (some nonce)).state.nPingUsecTime = t - ps.nPingUsecStart ∧
        (processPong ps t (some nonce)).state.nMinPingUsecTime
          = min ps.nMinPingUsecTime (t - ps.nPingUsecStart) ∧
        (processPong ps t (some nonce)).state.nPingNonceSent = 0) ∧
      (nonce ≠ ps.nPingNonceSent → nonce ≠ 0 →
        (processPong ps t (some nonce)).sProblem = "Nonce mismatch" ∧
        (processPong ps t (some nonce)).state.nPingNonceSent = ps.nPingNonceSent))

/-- The self-connect claim as stated: a version message whose nonce equals
our non-zero local nonce is answered by a silent disconnect. -/
def selfConnectClaimAsStated : Prop :=
  ∀ (cfg : VersionCfg) (st : VersionPeer) (msg : VersionMsg),
    st.nVersion = 0 → cfg.minProtoVersion ≤ msg.nVersion →
    cfg.nLocalHostNonce ≠ 0 → msg.nonce = cfg.nLocalHostNonce →
    (processVersion cfg st msg).fDisconnect = true ∧
    (processVersion cfg st msg).ok = true ∧
    (processVersion cfg st msg).misbehavior = 0 ∧
    (processVersion cfg st msg).pushed = []

/-- A benign inv environment: nothing already known, no initial block
download, send buffer never stressed. -/
def invEnvQuiet : InvEnv :=
  { fImporting := false, fReindex := false,
    alreadyHaveBlock := fun _ => false, txAlreadyHave := fun _ => false,
    ibd := false, regtest := false, blocksOnlyFlag := false,
    whitelisted := false, whitelistRelay := false,
    sendBufferSize := 10, sendSizeAfter := fun _ => 0 }

/-- An inv environment whose send buffer blows past twice the cap right
after the second entry. -/
def invEnvFlood : InvEnv :=
  { fImporting := false, fReindex := false,
    alreadyHaveBlock := fun _ => false, txAlreadyHave := fun _ => false,
    ibd := false, regtest := false, blocksOnlyFlag := false,
    whitelisted := false, whitelistRelay := false,
    sendBufferSize := 10, sendSizeAfter := fun i => if i = 0 then 0 else 100 }

/-- A message-loop environment whose per-command handler always fails
without setting a disconnect. -/
def pmEnvFailingHandler : PMEnv :=
  { whitelisted := false, sendBufferSize := 10, sendSizeAt := fun _ => 0,
    handler := fun _ => (false, false) }

/-- The unconnected-headers claim as stated: in a headers message whose
prefix is contiguous and which then breaks, a break on a header older than
a day *while in initial sync* disconnects with failure; otherwise all
headers from the break onward are cached with their arrival time, peer
block availability is updated for them, and the handler succeeds without
accepting any header. -/
def headersClaimAsStated : Prop :=
  ∀ (ibd : Bool) (index : List Hash) (cache₀ : HeaderCache) (adjTime tNow : Int)
    (maxUnconn : Nat) (timeout : Int) (acceptFn : CBlockHeader → AcceptResult)
    (l₁ : List CBlockHeader) (hd : CBlockHeader) (l₂ : List CBlockHeader)
    (r : HeadersResult),
    r = processHeadersMessage ibd index cache₀ adjTime tNow maxUnconn timeout acceptFn
      (l₁ ++ hd :: l₂) →
    (l₁ ++ hd :: l₂).length ≤ MAX_HEADERS_RESULTS →
    contiguousB index 0 l₁ = true →
    hd.hashPrevBlock ≠ scanStep index (endHash 0 l₁) hd →
    cache₀.length + (hd :: l₂).length ≤ maxUnconn →
    ((hd :: l₂).map (fun h => h.hashSelf)).Nodup →
    ((hd.nTime < adjTime - 24 * 60 * 60 ∧ ibd = true →
        r.fDisconnect = true ∧ r.ok = false) ∧
      (¬ (hd.nTime < adjTime - 24 * 60 * 60 ∧ ibd = true) →
        r.ok = true ∧ r.acceptedCount = 0 ∧
        (∀ h ∈ hd :: l₂, h.hashSelf ∈ r.availUpdates) ∧
        (∀ h ∈ hd :: l₂, assocLookup h.hashSelf r.cache = some (h, tNow))))

/-- The headers-batch claim as stated: a batch whose final count is
`MAX_HEADERS_RESULTS` with an accepted tail triggers the follow-up
`getheaders` and the sync-timer reset, and a message with 1999 entries
never triggers it. -/
def headersBatchClaimAsStated : Prop :=
  ∀ (ibd : Bool) (index : List Hash) (cache₀ : HeaderCache) (adjTime tNow : Int)
    (maxUnconn : Nat) (timeout : Int) (acceptFn : CBlockHeader → AcceptResult)
    (headers : List CBlockHeader) (r : HeadersResult),
    r = processHeadersMessage ibd index cache₀ adjTime tNow maxUnconn timeout acceptFn
      headers →
    ((r.nCountFinal = MAX_HEADERS_RESULTS → r.pindexLast.isSome = true →
        r.sentGetHeaders = true ∧ r.syncStartReset = true) ∧
      (headers.length = 1999 → r.sentGetHeaders = false))

/-- The ProcessMessages claim as stated: a false return from the
per-command handler makes the outer loop drop the peer with a ban. -/
def processMessagesClaimAsStated : Prop :=
  ∀ (env : PMEnv) (msgs : List NetMessage) (fd : Bool),
    (∃ i, i < (processMessages env msgs fd).dispatched ∧ (env.handler i).1 = false) →
    1 ≤ (processMessages env msgs fd).bans ∧ (processMessages env msgs fd).fOk = false

end BUnet

/-! ## Theorems -/

namespace BUnet

/-- **C8, counterexample.** The claim fails when the pong arrives with a
non-positive measured time: with `nPingNonceSent = 7`, `nPingUsecStart = 5`,
`nPingUsecTime = 111` and arrival time 5, the matching pong clears the ping
but does not record the (zero) round-trip time. -/
theorem pong_rtt_claim_false : ¬ pongClaimAsStated := by
  intro h
  have h1 := ((h ⟨7, 5, 111, 222⟩ 5 7 (by decide)).1 rfl).1
  exact absurd h1 (by decide)

/-- **C8, amended.** While a ping is outstanding: a matching pong with a
positive measured time records last and minimum round-trip times and clears
the nonce; a matching pong with non-positive measured time only clears the
nonce ("Timing mishap"); a non-zero mismatching pong logs "Nonce mismatch"
and leaves the state unchanged, so the ping remains outstanding. -/
theorem pong_nonce_handling (ps : PingState) (t : Int) (nonce : Nat)
    (hout : ps.nPingNonceSent ≠ 0) :
    (nonce = ps.nPingNonceSent →
      (ps.nPingUsecStart < t →
        (processPong ps t (some nonce)).state =
          { ps with
            nPingNonceSent := 0
            nPingUsecTime := t - ps.nPingUsecStart
            nMinPingUsecTime := min ps.nMinPingUsecTime (t - ps.nPingUsecStart) }) ∧
      (¬ ps.nPingUsecStart < t →
        (processPong ps t (some nonce)).state = { ps with nPingNonceSent := 0 } ∧
        (processPong ps t (some nonce)).sProblem = "Timing mishap")) ∧
    (nonce ≠ ps.nPingNonceSent → nonce ≠ 0 →
      (processPong ps t (some nonce)).sProblem = "Nonce mismatch" ∧
      (processPong ps t (some nonce)).state = ps) := by
  refine ⟨fun hm => ⟨fun hlt => ?_, fun hge => ?_⟩, fun hne hnz => ?_⟩
  · have hpos : (0 : Int) < t - ps.nPingUsecStart := Int.sub_pos.mpr hlt
    simp [processPong, hout, hm, hpos]
  · have hnpos : ¬ ((0 : Int) < t - ps.nPingUsecStart) := fun hc => hge (Int.sub_pos.mp hc)
    simp [processPong, hout, hm, hnpos]
  · simp [processPong, hout, hne, hnz]

/-- Witness for `pong_nonce_handling`: nonce 7 outstanding, pong returns 8:
"Nonce mismatch" is logged and the ping state is untouched. -/
theorem pong_nonce_handling_test :
    (processPong ⟨7, 5, 111, 222⟩ 9 (some 8)).sProblem = "Nonce mismatch" ∧
      (processPong ⟨7, 5, 111, 222⟩ 9 (some 8)).state = ⟨7, 5, 111, 222⟩ := by
  have h := pong_nonce_handling ⟨7, 5, 111, 222⟩ 9 8 (by decide)
  exact h.2 (by decide) (by decide)

/-- **C6, counterexample.** The code tests `nNonce > 1`, not merely
non-zero: with local nonce 1 and a peer sending nonce 1, the handler does
not disconnect. -/
theorem version_selfconnect_claim_false : ¬ selfConnectClaimAsStated := by
  intro h
  have h1 := (h ⟨0, 0, 1, false, false, 0, false, false⟩
      ⟨0, false, false, false⟩
      ⟨1, 0, 0, 0, some (0, 1), none, none, none⟩
      rfl (by decide) (by decide) (by decide)).1
  exact absurd h1 (by decide)

/-- **C6, amended.** A first, protocol-acceptable version message whose
nonce equals our local nonce and is greater than 1 is answered by a silent
disconnect: `fDisconnect` is set, no misbehavior points are charged, nothing
(in particular no reject) is pushed, and the handler returns success. -/
theorem version_selfconnect_silent (cfg : VersionCfg) (st : VersionPeer) (msg : VersionMsg)
    (hfirst : st.nVersion = 0) (hproto : cfg.minProtoVersion ≤ msg.nVersion)
    (hnonce : msg.nonce = cfg.nLocalHostNonce) (hgt : 1 < cfg.nLocalHostNonce) :
    (processVersion cfg st msg).fDisconnect = true ∧
      (processVersion cfg st msg).ok = true ∧
      (processVersion cfg st msg).misbehavior = 0 ∧
      (processVersion cfg st msg).pushed = [] := by
  have hnl : ¬ (msg.nVersion < cfg.minProtoVersion) := Int.not_lt.mpr hproto
  have hself : msg.nonce = cfg.nLocalHostNonce ∧ msg.nonce > 1 :=
    ⟨hnonce, by rw [hnonce]; exact hgt⟩
  simp [processVersion, hfirst, hnl, hnonce, hgt]

/-- Witness for `version_selfconnect_silent` at the spec's literal nonce
`0xABCDEF0123456789`. -/
theorem version_selfconnect_silent_test :
    (processVersion ⟨0, 0, 0xABCDEF0123456789, false, false, 0, false, false⟩
        ⟨0, true, false, false⟩
        ⟨100, 0, 0, 0, some (0, 0xABCDEF0123456789), none, none, none⟩).fDisconnect = true ∧
      (processVersion ⟨0, 0, 0xABCDEF0123456789, false, false, 0, false, false⟩
        ⟨0, true, false, false⟩
        ⟨100, 0, 0, 0, some (0, 0xABCDEF0123456789), none, none, none⟩).ok = true ∧
      (processVersion ⟨0, 0, 0xABCDEF0123456789, false, false, 0, false, false⟩
        ⟨0, true, false, false⟩
        ⟨100, 0, 0, 0, some (0, 0xABCDEF0123456789), none, none, none⟩).misbehavior = 0 ∧
      (processVersion ⟨0, 0, 0xABCDEF0123456789, false, false, 0, false, false⟩
        ⟨0, true, false, false⟩
        ⟨100, 0, 0, 0, some (0, 0xABCDEF0123456789), none, none, none⟩).pushed = [] :=
  version_selfconnect_silent _ _ _ rfl (by decide) (by decide) (by decide)

/-- **C4.** A block-class `getdata` item is served only when the block is
on the active chain, or is script-valid and within one month of the best
header both by block time and by proof-of-work-equivalent time; a block
marked excessive that is off the active chain is never served. -/
theorem getdata_block_serve_policy (env : GetDataEnv) (invType : Nat)
    (e : BlockIndexEntry) :
    ((processGetDataBlock env invType (some e)).served = true →
      e.onActiveChain = true ∨
        (e.validScripts = true ∧ env.bestHeaderTime.isSome = true ∧
          env.bestHeaderTime.getD 0 - e.nTime < nOneMonth ∧
          env.powEquivTime < nOneMonth)) ∧
    (e.excessive = true → e.onActiveChain = false →
      (processGetDataBlock env invType (some e)).served = false) := by
  obtain ⟨oc, vs, nt, ex, hd⟩ := e
  constructor
  · intro hserved
    simp only [processGetDataBlock, decide_eq_true_eq] at hserved
    by_cases hrec : vs = true ∧ env.bestHeaderTime.isSome = true ∧
        env.bestHeaderTime.getD 0 - nt < nOneMonth ∧ env.powEquivTime < nOneMonth
    · cases oc
      · exact Or.inr hrec
      · exact Or.inl rfl
    · cases oc
      · simp [hrec] at hserved
      · exact Or.inl rfl
  · intro hexc hchain
    simp only at hexc hchain
    subst hexc
    subst hchain
    simp [processGetDataBlock]

/-- Witness for `getdata_block_serve_policy`: an excessive off-chain block
(valid, recent, data on disk) is not served. -/
theorem getdata_block_serve_policy_test :
    (processGetDataBlock ⟨some 100, 0, false, false, true, true⟩ MSG_BLOCK
        (some ⟨false, true, 90, true, true⟩)).served = false := by
  have h := getdata_block_serve_policy ⟨some 100, 0, false, false, true, true⟩ MSG_BLOCK
    ⟨false, true, 90, true, true⟩
  exact h.2 rfl rfl

/-- Helper: when every entry of the inv loop is valid and no flood check
fires, the loop succeeds and processes every entry. -/
theorem processInvLoop_all_ok (env : InvEnv) (fBlocksOnly : Bool)
    (hsize : ∀ i, env.sendSizeAfter i ≤ env.sendBufferSize * 2) :
    ∀ (l : List InvVect) (n : Nat) (avail gh ask : List Hash),
    (∀ inv ∈ l, (inv.invType = MSG_TX ∨ inv.invType = MSG_BLOCK) ∧ inv.hash ≠ 0) →
    (processInvLoop env fBlocksOnly l n avail gh ask).ok = true ∧
      (processInvLoop env fBlocksOnly l n avail gh ask).processed = l.length := by
  intro l
  induction l with
  | nil => intro n avail gh ask _; simp [processInvLoop]
  | cons inv rest ih =>
      intro n avail gh ask hvalid
      have hv := hvalid inv (List.mem_cons_self _ _)
      have hns : ¬ (env.sendSizeAfter n > env.sendBufferSize * 2) :=
        Nat.not_lt.mpr (hsize n)
      have hcond : ¬ (¬ (inv.invType = MSG_TX ∨ inv.invType = MSG_BLOCK) ∨ inv.hash = 0) := by
        rcases hv with ⟨h1, h2⟩
        simp [h1, h2]
      have hrest : ∀ i ∈ rest, (i.invType = MSG_TX ∨ i.invType = MSG_BLOCK) ∧ i.hash ≠ 0 :=
        fun i hi => hvalid i (List.mem_cons_of_mem _ hi)
      simp only [processInvLoop]
      rw [if_neg hcond, if_neg hns]
      exact ⟨(ih (n + 1) _ _ _ hrest).1,
        congrArg (· + 1) (ih (n + 1) _ _ _ hrest).2⟩

/-- **C10.** A `filteradd` whose element is within the 520-byte limit but
which arrives with no bloom filter loaded charges 100 misbehavior points and
leaves the filter state unchanged. -/
theorem filteradd_no_filter_misbehaves (vData : List Nat)
    (hlen : vData.length ≤ MAX_SCRIPT_ELEMENT_SIZE) :
    (processFilterAdd none vData).misbehavior = 100 ∧
      (processFilterAdd none vData).filter = none := by
  unfold processFilterAdd
  simp [Nat.not_lt.mpr hlen]

/-- Witness for `filteradd_no_filter_misbehaves` at a concrete 3-byte
element. -/
theorem filteradd_no_filter_misbehaves_test :
    (processFilterAdd none [1, 2, 3]).misbehavior = 100 ∧
      (processFilterAdd none [1, 2, 3]).filter = none :=
  filteradd_no_filter_misbehaves [1, 2, 3] (by decide)

/-- **C7.** An `inv` with 0 entries or more than `MAX_INV_SZ` entries earns
20 misbehavior points and fails without processing anything; an `inv` with
exactly `MAX_INV_SZ` (50000) well-formed entries passes the size gate and
every entry is processed. -/
theorem inv_size_gate (env : InvEnv) (vInv : List InvVect)
    (hio : env.fImporting = false) (hre : env.fReindex = false)
    (hvalid : ∀ inv ∈ vInv, (inv.invType = MSG_TX ∨ inv.invType = MSG_BLOCK) ∧ inv.hash ≠ 0)
    (hsize : ∀ i, env.sendSizeAfter i ≤ env.sendBufferSize * 2) :
    ((vInv.length = 0 ∨ MAX_INV_SZ < vInv.length) →
      (processInv env vInv).ok = false ∧ (processInv env vInv).misbehavior = 20 ∧
        (processInv env vInv).processed = 0) ∧
    (vInv.length = MAX_INV_SZ →
      (processInv env vInv).ok = true ∧ (processInv env vInv).processed = MAX_INV_SZ) := by
  have hnotio : ¬ (env.fImporting = true ∨ env.fReindex = true) := by
    simp [hio, hre]
  constructor
  · intro hlen
    have hgate : vInv.length > MAX_INV_SZ ∨ vInv.isEmpty = true := by
      rcases hlen with h | h
      · right
        cases vInv with
        | nil => rfl
        | cons a t => simp at h
      · left; exact h
    rw [processInv, if_neg hnotio, if_pos hgate]
    exact ⟨rfl, rfl, rfl⟩
  · intro hlen
    have hgate : ¬ (vInv.length > MAX_INV_SZ ∨ vInv.isEmpty = true) := by
      rintro (h | h)
      · rw [hlen] at h; exact absurd h (by decide)
      · cases vInv with
        | nil => exact absurd hlen (by decide)
        | cons a t => simp at h
    have hloop := processInvLoop_all_ok env
      (decide (env.blocksOnlyFlag = true ∧ ¬ (env.whitelisted = true ∧ env.whitelistRelay = true)))
      hsize vInv 0 [] [] [] hvalid
    constructor
    · rw [processInv, if_neg hnotio, if_neg hgate]
      exact hloop.1
    · rw [processInv, if_neg hnotio, if_neg hgate]
      rw [hloop.2, hlen]

/-- Witness for `inv_size_gate`: 50000 transaction entries pass the gate
and all are processed. -/
theorem inv_size_gate_test :
    (processInv invEnvQuiet (List.replicate 50000 ⟨MSG_TX, 5⟩)).ok = true ∧
      (processInv invEnvQuiet (List.replicate 50000 ⟨MSG_TX, 5⟩)).processed = MAX_INV_SZ := by
  have h := inv_size_gate invEnvQuiet (List.replicate 50000 ⟨MSG_TX, 5⟩) rfl rfl
    (fun inv hi => by
      rw [List.eq_of_mem_replicate hi]
      exact ⟨Or.inl rfl, by decide⟩)
    (fun i => Nat.zero_le _)
  exact h.2 (by rw [List.length_replicate]; rfl)

/-- Helper: the inv loop aborts with 50 points at the first entry whose
post-processing send size exceeds twice the buffer cap. -/
theorem processInvLoop_flood_abort (env : InvEnv) (fBlocksOnly : Bool) :
    ∀ (k : Nat) (l : List InvVect) (n : Nat) (avail gh ask : List Hash),
    k < l.length →
    (∀ j (hlt : j < l.length), j ≤ k →
      ((l.get ⟨j, hlt⟩).invType = MSG_TX ∨ (l.get ⟨j, hlt⟩).invType = MSG_BLOCK) ∧
        (l.get ⟨j, hlt⟩).hash ≠ 0) →
    (∀ j, j < k → env.sendSizeAfter (n + j) ≤ env.sendBufferSize * 2) →
    env.sendBufferSize * 2 < env.sendSizeAfter (n + k) →
    (processInvLoop env fBlocksOnly l n avail gh ask).ok = false ∧
      (processInvLoop env fBlocksOnly l n avail gh ask).misbehavior = 50 ∧
      (processInvLoop env fBlocksOnly l n avail gh ask).processed = k + 1 := by
  intro k
  induction k with
  | zero =>
      intro l n avail gh ask hk hvalid hsmall hbig
      cases l with
      | nil => simp at hk
      | cons inv rest =>
          have hv := hvalid 0 (by simp) (Nat.le_refl 0)
          simp only [List.get] at hv
          have hcond : ¬ (¬ (inv.invType = MSG_TX ∨ inv.invType = MSG_BLOCK) ∨ inv.hash = 0) := by
            rcases hv with ⟨h1, h2⟩
            simp [h1, h2]
          rw [Nat.add_zero] at hbig
          simp only [processInvLoop]
          rw [if_neg hcond, if_pos hbig]
          exact ⟨rfl, rfl, rfl⟩
  | succ k ih =>
      intro l n avail gh ask hk hvalid hsmall hbig
      cases l with
      | nil => simp at hk
      | cons inv rest =>
          have hv := hvalid 0 (by simp) (Nat.zero_le _)
          simp only [List.get] at hv
          have hcond : ¬ (¬ (inv.invType = MSG_TX ∨ inv.invType = MSG_BLOCK) ∨ inv.hash = 0) := by
            rcases hv with ⟨h1, h2⟩
            simp [h1, h2]
          have hns : ¬ (env.sendSizeAfter n > env.sendBufferSize * 2) := by
            have := hsmall 0 (Nat.succ_pos k)
            rw [Nat.add_zero] at this
            exact Nat.not_lt.mpr this
          have hk' := Nat.lt_of_succ_lt_succ hk
          have hvalid' : ∀ j (hlt : j < rest.length), j ≤ k →
              ((rest.get ⟨j, hlt⟩).invType = MSG_TX ∨ (rest.get ⟨j, hlt⟩).invType = MSG_BLOCK) ∧
                (rest.get ⟨j, hlt⟩).hash ≠ 0 := fun j hlt hj => by
            have := hvalid (j + 1) (Nat.succ_lt_succ hlt) (Nat.succ_le_succ hj)
            simpa using this
          have hsmall' : ∀ j, j < k → env.sendSizeAfter (n + 1 + j) ≤ env.sendBufferSize * 2 :=
            fun j hj => by
              have := hsmall (j + 1) (Nat.succ_lt_succ hj)
              rwa [Nat.add_succ, ← Nat.succ_add] at this
          have hbig' : env.sendBufferSize * 2 < env.sendSizeAfter (n + 1 + k) := by
            rwa [Nat.add_succ, ← Nat.succ_add] at hbig
          simp only [processInvLoop]
          rw [if_neg hcond, if_neg hns]
          refine ⟨?_, ?_, ?_⟩
          · exact (ih rest (n + 1) _ _ _ hk' hvalid' hsmall' hbig').1
          · exact (ih rest (n + 1) _ _ _ hk' hvalid' hsmall' hbig').2.1
          · exact congrArg (· + 1) (ih rest (n + 1) _ _ _ hk' hvalid' hsmall' hbig').2.2

/-- **C9.** If after handling entry `k` of a size-admissible `inv` the
peer's send size exceeds twice the configured buffer cap, the handler
charges 50 misbehavior points and fails, having entered exactly `k + 1`
loop iterations (the remaining entries are not processed). -/
theorem inv_flood_misbehavior (env : InvEnv) (vInv : List InvVect) (k : Nat)
    (hio : env.fImporting = false) (hre : env.fReindex = false)
    (hlen : vInv.length ≤ MAX_INV_SZ) (hk : k < vInv.length)
    (hvalid : ∀ j (hlt : j < vInv.length), j ≤ k →
      ((vInv.get ⟨j, hlt⟩).invType = MSG_TX ∨ (vInv.get ⟨j, hlt⟩).invType = MSG_BLOCK) ∧
        (vInv.get ⟨j, hlt⟩).hash ≠ 0)
    (hsmall : ∀ j, j < k → env.sendSizeAfter j ≤ env.sendBufferSize * 2)
    (hbig : env.sendBufferSize * 2 < env.sendSizeAfter k) :
    (processInv env vInv).ok = false ∧ (processInv env vInv).misbehavior = 50 ∧
      (processInv env vInv).processed = k + 1 := by
  have hnotio : ¬ (env.fImporting = true ∨ env.fReindex = true) := by
    simp [hio, hre]
  have hgate : ¬ (vInv.length > MAX_INV_SZ ∨ vInv.isEmpty = true) := by
    rintro (h | h)
    · exact absurd hlen (Nat.not_le.mpr h)
    · cases vInv with
      | nil => simp at hk
      | cons a t => simp at h
  have hloop := processInvLoop_flood_abort env
    (decide (env.blocksOnlyFlag = true ∧ ¬ (env.whitelisted = true ∧ env.whitelistRelay = true)))
    k vInv 0 [] [] [] hk hvalid
    (fun j hj => by simpa using hsmall j hj)
    (by simpa using hbig)
  rw [processInv, if_neg hnotio, if_neg hgate]
  exact hloop

/-- Witness for `inv_flood_misbehavior`: two transaction entries, the send
size exceeding twice the cap after the second one. -/
theorem inv_flood_misbehavior_test :
    (processInv invEnvFlood [⟨MSG_TX, 5⟩, ⟨MSG_TX, 6⟩]).ok = false ∧
      (processInv invEnvFlood [⟨MSG_TX, 5⟩, ⟨MSG_TX, 6⟩]).misbehavior = 50 ∧
      (processInv invEnvFlood [⟨MSG_TX, 5⟩, ⟨MSG_TX, 6⟩]).processed = 2 :=
  inv_flood_misbehavior invEnvFlood [⟨MSG_TX, 5⟩, ⟨MSG_TX, 6⟩] 1 rfl rfl
    (by decide) (by decide)
    (by
      have hall : ∀ i : Fin ([⟨MSG_TX, 5⟩, ⟨MSG_TX, 6⟩] : List InvVect).length,
          (([⟨MSG_TX, 5⟩, ⟨MSG_TX, 6⟩] : List InvVect).get i).invType = MSG_TX ∧
            (([⟨MSG_TX, 5⟩, ⟨MSG_TX, 6⟩] : List InvVect).get i).hash ≠ 0 := by decide
      exact fun j hlt hj => ⟨Or.inl (hall ⟨j, hlt⟩).1, (hall ⟨j, hlt⟩).2⟩)
    (fun j hj => by
      have hj0 : j = 0 := by omega
      subst hj0
      decide)
    (by decide)

/-- **C3, counterexample.** A handler returning false does not cause a ban
or a drop: for a single well-formed message whose handler fails, the loop
issues no ban and still returns true. -/
theorem processMessages_ban_claim_false : ¬ processMessagesClaimAsStated := by
  intro h
  have h1 := h pmEnvFailingHandler [⟨true, true, true, true⟩] false
    ⟨0, by decide, rfl⟩
  exact absurd h1.1 (by decide)

/-- Helper: as long as every complete queued message carries the right
network magic, the outer loop never bans and returns true, whatever the
per-command handler returns. -/
theorem processMessagesLoop_good_magic (env : PMEnv) :
    ∀ (msgs : List NetMessage) (iter disp mp : Nat) (fd : Bool) (bans : Nat),
    (∀ m ∈ msgs, m.magicOk = true) →
    (processMessagesLoop env msgs iter disp mp fd bans).fOk = true ∧
      (processMessagesLoop env msgs iter disp mp fd bans).bans = bans := by
  intro msgs
  induction msgs with
  | nil =>
      intro iter disp mp fd bans _
      rw [processMessagesLoop]
      split
      · exact ⟨rfl, rfl⟩
      · exact ⟨rfl, rfl⟩
  | cons m rest ih =>
      intro iter disp mp fd bans hmagic
      have hm : m.magicOk = true := hmagic m (List.mem_cons_self _ _)
      have hrest : ∀ m' ∈ rest, m'.magicOk = true :=
        fun m' hm' => hmagic m' (List.mem_cons_of_mem _ hm')
      simp only [processMessagesLoop]
      by_cases hstop : fd = true ∨ ¬ env.sendSizeAt iter < env.sendBufferSize
      · rw [if_pos hstop]; exact ⟨rfl, rfl⟩
      · rw [if_neg hstop]
        by_cases hc : ¬ m.complete = true
        · rw [if_pos hc]; exact ⟨rfl, rfl⟩
        · rw [if_neg hc]
          rw [if_neg (show ¬ ¬ m.magicOk = true by simp [hm])]
          by_cases hh : ¬ m.headerValid = true
          · rw [if_pos hh]; exact ih _ _ _ _ _ hrest
          · rw [if_neg hh]
            by_cases hcs : ¬ m.checksumOk = true
            · rw [if_pos hcs]; exact ih _ _ _ _ _ hrest
            · rw [if_neg hcs]
              by_cases hmp : mp + 1 > 2000
              · rw [if_pos hmp]; exact ⟨rfl, rfl⟩
              · rw [if_neg hmp]; exact ih _ _ _ _ _ hrest

/-- **C3, amended.** A false return from the per-command handler only logs
the failure: when every queued message has valid magic bytes,
`ProcessMessages` returns true and issues no ban, whatever `ProcessMessage`
returns; the drop-with-ban path is reserved for an invalid message start. -/
theorem processMessages_no_ban_on_handler_failure (env : PMEnv) (msgs : List NetMessage)
    (fd : Bool) (hmagic : ∀ m ∈ msgs, m.magicOk = true) :
    (processMessages env msgs fd).fOk = true ∧ (processMessages env msgs fd).bans = 0 :=
  processMessagesLoop_good_magic env msgs 0 0 0 fd 0 hmagic

/-- Witness for `processMessages_no_ban_on_handler_failure`: one good
message whose handler fails; no ban, loop returns true. -/
theorem processMessages_no_ban_on_handler_failure_test :
    (processMessages pmEnvFailingHandler [⟨true, true, true, true⟩] false).fOk = true ∧
      (processMessages pmEnvFailingHandler [⟨true, true, true, true⟩] false).bans = 0 :=
  processMessages_no_ban_on_handler_failure pmEnvFailingHandler
    [⟨true, true, true, true⟩] false
    (fun m hm => by
      rw [List.mem_singleton.mp hm])

/-- Helper: unfolding a reset over a cons cell. -/
theorem reset_cons (q : Hash × Int) (t : List (Hash × Int)) (h : Hash) :
    resetLastBlockRequestTime (q :: t) h =
      (if q.1 = h then (q.1, (0 : Int)) else q) :: resetLastBlockRequestTime t h := rfl

/-- Helper: `assocLookup` after a single reset. -/
theorem lookup_reset (tl : List (Hash × Int)) (h h' : Hash) :
    assocLookup h' (resetLastBlockRequestTime tl h) =
      if h' = h then (assocLookup h' tl).map (fun _ => (0 : Int))
      else assocLookup h' tl := by
  induction tl with
  | nil => simp [resetLastBlockRequestTime, assocLookup]
  | cons q t ih =>
      rw [reset_cons]
      by_cases hq : q.1 = h
      · rw [if_pos hq]
        by_cases hh' : h' = h
        · subst hh'
          simp [assocLookup, hq]
        · have hqh' : ¬ q.1 = h' := fun hc => hh' (hc.symm.trans hq)
          simp [assocLookup, hqh', hh', ih]
      · rw [if_neg hq]
        by_cases hqh' : q.1 = h'
        · have hh' : ¬ h' = h := fun hc => hq (hqh'.trans hc)
          simp [assocLookup, hqh', hh']
        · simp [assocLookup, hqh', ih]

/-- Helper: a reset keeps an already-zero entry at zero. -/
theorem lookup_reset_zero (tl : List (Hash × Int)) (h h' : Hash)
    (hz : assocLookup h' tl = some 0) :
    assocLookup h' (resetLastBlockRequestTime tl h) = some 0 := by
  rw [lookup_reset]
  by_cases hh : h' = h
  · rw [if_pos hh, hz]; rfl
  · rw [if_neg hh]; exact hz

/-- Helper: a reset keeps an entry present. -/
theorem lookup_reset_isSome (tl : List (Hash × Int)) (h h' : Hash)
    (hs : (assocLookup h' tl).isSome = true) :
    (assocLookup h' (resetLastBlockRequestTime tl h)).isSome = true := by
  rw [lookup_reset]
  obtain ⟨v, hv⟩ := Option.isSome_iff_exists.mp hs
  by_cases hh : h' = h
  · rw [if_pos hh, hv]; rfl
  · rw [if_neg hh, hv]; rfl

/-- Helper: folding resets keeps a zero entry at zero. -/
theorem foldReset_zero : ∀ (L : List Hash) (tl : List (Hash × Int)) (h' : Hash),
    assocLookup h' tl = some 0 →
    assocLookup h' (L.foldl resetLastBlockRequestTime tl) = some 0 := by
  intro L
  induction L with
  | nil => intro tl h' hz; simpa using hz
  | cons a t ih =>
      intro tl h' hz
      simpa using ih _ _ (lookup_reset_zero tl a h' hz)

/-- Helper: after folding resets over a list containing `h'`, the entry of
`h'` (present initially) reads zero. -/
theorem foldReset_mem : ∀ (L : List Hash) (tl : List (Hash × Int)) (h' : Hash),
    h' ∈ L → (assocLookup h' tl).isSome = true →
    assocLookup h' (L.foldl resetLastBlockRequestTime tl) = some 0 := by
  intro L
  induction L with
  | nil => intro tl h' hmem; simp at hmem
  | cons a t ih =>
      intro tl h' hmem hs
      by_cases hat : h' ∈ t
      · exact ih _ _ hat (lookup_reset_isSome tl a h' hs)
      · have ha : h' = a := by
          rcases List.mem_cons.mp hmem with h | h
          · exact h
          · exact absurd h hat
        simp only [List.foldl_cons]
        apply foldReset_zero
        obtain ⟨v, hv⟩ := Option.isSome_iff_exists.mp hs
        rw [lookup_reset, if_pos ha, hv]
        rfl

/-- Helper: folded erases only remove in-flight rows. -/
theorem foldErase_subset (p : NodeId) :
    ∀ (L : List Hash) (fl : List (Hash × NodeId)) (e : Hash × NodeId),
    e ∈ L.foldl (fun acc x => mapBlocksInFlightErase acc x p) fl → e ∈ fl := by
  intro L
  induction L with
  | nil => intro fl e he; simpa using he
  | cons a t ih =>
      intro fl e he
      simp only [List.foldl_cons] at he
      exact (List.mem_filter.mp (ih _ _ he)).1

/-- Helper: after erasing every hash of `L` for peer `p`, no row `(h, p)`
with `h ∈ L` survives. -/
theorem foldErase_not_mem (p : NodeId) :
    ∀ (L : List Hash) (fl : List (Hash × NodeId)) (h : Hash),
    h ∈ L → (h, p) ∉ L.foldl (fun acc x => mapBlocksInFlightErase acc x p) fl := by
  intro L
  induction L with
  | nil => intro fl h hmem; simp at hmem
  | cons a t ih =>
      intro fl h hmem hc
      simp only [List.foldl_cons] at hc
      by_cases hat : h ∈ t
      · exact ih _ _ hat hc
      · have ha : h = a := by
          rcases List.mem_cons.mp hmem with h1 | h1
          · exact h1
          · exact absurd h1 hat
        have hin : (h, p) ∈ mapBlocksInFlightErase fl a p := foldErase_subset p t _ _ hc
        have := (List.mem_filter.mp hin).2
        simp [ha] at this

/-- Helper: every in-flight row of peer `p` has its hash collected by
`getBlocksInFlight`. -/
theorem mem_getBlocksInFlight (g : NetGlobalState) (p : NodeId) (h : Hash)
    (hmem : (h, p) ∈ g.inFlight) : h ∈ getBlocksInFlight g p := by
  simp only [getBlocksInFlight, List.mem_map]
  exact ⟨(h, p), List.mem_filter.mpr ⟨hmem, by simp⟩, rfl⟩

/-- **C2.** After `FinalizeNode(p)` for a registered peer `p`: no in-flight
entry references `p`; the last-request time of every block that was in
flight from `p` reads zero, so another peer may be asked immediately; and
when `p` was the last live peer, the in-flight map is empty and the
preferred-download counter is zero. -/
theorem finalizeNode_clears_peer (g : NetGlobalState) (p : NodeId) (st : CNodeStateR)
    (hst : assocLookup p g.nodeStates = some st)
    (htimes : ∀ h : Hash, (h, p) ∈ g.inFlight →
      (assocLookup h g.lastBlockRequestTime).isSome = true) :
    (∀ h : Hash, (h, p) ∉ (FinalizeNode g p).inFlight) ∧
      (∀ h : Hash, (h, p) ∈ g.inFlight →
        assocLookup h (FinalizeNode g p).lastBlockRequestTime = some 0) ∧
      ((g.nodeStates.filter (fun q => ¬ (q.1 = p))).isEmpty = true →
        (FinalizeNode g p).inFlight = [] ∧ (FinalizeNode g p).nPreferredDownload = 0) := by
  have hfin : FinalizeNode g p =
      { nodeStates := g.nodeStates.filter (fun q => ¬ (q.1 = p))
        nSyncStarted := if st.fSyncStarted then g.nSyncStarted - 1 else g.nSyncStarted
        nPreferredDownload :=
          if (g.nodeStates.filter (fun q => ¬ (q.1 = p))).isEmpty then
            (if g.nPreferredDownload - (if st.fPreferredDownload then 1 else 0) = 0 then
              g.nPreferredDownload - (if st.fPreferredDownload then 1 else 0) else 0)
          else g.nPreferredDownload - (if st.fPreferredDownload then 1 else 0)
        inFlight :=
          if (g.nodeStates.filter (fun q => ¬ (q.1 = p))).isEmpty then
            (if ((getBlocksInFlight g p).foldl
                (fun acc x => mapBlocksInFlightErase acc x p) g.inFlight).isEmpty then
              (getBlocksInFlight g p).foldl
                (fun acc x => mapBlocksInFlightErase acc x p) g.inFlight
            else [])
          else
            (getBlocksInFlight g p).foldl
              (fun acc x => mapBlocksInFlightErase acc x p) g.inFlight
        lastBlockRequestTime :=
          (getBlocksInFlight g p).foldl resetLastBlockRequestTime g.lastBlockRequestTime } := by
    unfold FinalizeNode
    rw [hst]
  rw [hfin]
  refine ⟨?_, ?_, ?_⟩
  · intro h hc
    simp only at hc
    have hflE : (h, p) ∈ (getBlocksInFlight g p).foldl
        (fun acc x => mapBlocksInFlightErase acc x p) g.inFlight := by
      by_cases hns : (g.nodeStates.filter (fun q => ¬ (q.1 = p))).isEmpty = true
      · rw [if_pos hns] at hc
        by_cases hfe : ((getBlocksInFlight g p).foldl
            (fun acc x => mapBlocksInFlightErase acc x p) g.inFlight).isEmpty = true
        · rw [if_pos hfe] at hc; exact hc
        · rw [if_neg hfe] at hc; simp at hc
      · rw [if_neg hns] at hc; exact hc
    have hin : (h, p) ∈ g.inFlight := foldErase_subset p _ _ _ hflE
    exact foldErase_not_mem p _ _ _ (mem_getBlocksInFlight g p h hin) hflE
  · intro h hmem
    exact foldReset_mem _ _ _ (mem_getBlocksInFlight g p h hmem) (htimes h hmem)
  · intro hns
    simp only [hns, if_true]
    constructor
    · by_cases hfe : ((getBlocksInFlight g p).foldl
          (fun acc x => mapBlocksInFlightErase acc x p) g.inFlight).isEmpty = true
      · rw [if_pos hfe]; exact List.isEmpty_iff.mp hfe
      · rw [if_neg hfe]
    · by_cases hz : g.nPreferredDownload - (if st.fPreferredDownload then 1 else 0) = 0
      · rw [if_pos hz]; exact hz
      · rw [if_neg hz]

/-- Witness for `finalizeNode_clears_peer`: one peer (id 3) with one block
(hash 9) in flight; after finalizing it everything is cleared. -/
theorem finalizeNode_clears_peer_test :
    ((9, 3) ∉ (FinalizeNode ⟨[(3, ⟨true, true⟩)], 1, 1, [(9, 3)], [(9, 77)]⟩ 3).inFlight) ∧
      assocLookup 9 (FinalizeNode ⟨[(3, ⟨true, true⟩)], 1, 1, [(9, 3)], [(9, 77)]⟩
        3).lastBlockRequestTime = some 0 ∧
      (FinalizeNode ⟨[(3, ⟨true, true⟩)], 1, 1, [(9, 3)], [(9, 77)]⟩ 3).inFlight = [] ∧
      (FinalizeNode ⟨[(3, ⟨true, true⟩)], 1, 1, [(9, 3)], [(9, 77)]⟩ 3).nPreferredDownload = 0 := by
  have h := finalizeNode_clears_peer ⟨[(3, ⟨true, true⟩)], 1, 1, [(9, 3)], [(9, 77)]⟩ 3
    ⟨true, true⟩ (by decide)
    (by
      intro h hmem
      have h9 : h = 9 := by
        have := List.mem_singleton.mp hmem
        exact congrArg Prod.fst this
      subst h9
      decide)
  exact ⟨h.1 9, h.2.1 9 (by decide), h.2.2 (by decide)⟩

/-- Helper: a cache insert grows the cache by at most one entry. -/
theorem cacheInsert_length (c : HeaderCache) (k : Hash) (v : CBlockHeader × Int) :
    (cacheInsert c k v).length ≤ c.length + 1 := by
  induction c with
  | nil => simp [cacheInsert]
  | cons e t ih =>
      simp only [cacheInsert]
      split
      · simp
      · split
        · simp
        · simpa using Nat.succ_le_succ ih

/-- Helper: looking up the freshly inserted key. -/
theorem lookup_cacheInsert_self (c : HeaderCache) (k : Hash) (v : CBlockHeader × Int) :
    assocLookup k (cacheInsert c k v) = some v := by
  induction c with
  | nil => simp [cacheInsert, assocLookup]
  | cons e t ih =>
      simp only [cacheInsert]
      split
      · simp [assocLookup]
      · split
        · simp [assocLookup]
        · rename_i h1 h2
          have hne : ¬ e.1 = k := fun hc => h2 hc.symm
          simp [assocLookup, hne, ih]

/-- Helper: a cache insert leaves other keys untouched. -/
theorem lookup_cacheInsert_ne (c : HeaderCache) (k : Hash) (v : CBlockHeader × Int)
    (k' : Hash) (hne : k' ≠ k) :
    assocLookup k' (cacheInsert c k v) = assocLookup k' c := by
  have hkk : ¬ k = k' := fun hc => hne hc.symm
  induction c with
  | nil => simp [cacheInsert, assocLookup, hkk]
  | cons e t ih =>
      simp only [cacheInsert]
      split
      · simp [assocLookup, hkk]
      · split
        · rename_i h1 h2
          have he : ¬ e.1 = k' := by
            rw [← h2]
            exact hkk
          simp [assocLookup, hkk, he]
        · simp only [assocLookup]
          split
          · rfl
          · exact ih

/-- Helper: a contiguous prefix is walked through without touching the
unconnected state. -/
theorem scanLoop_contiguous (adjTime tNow : Int) (maxUnconn : Nat) (index : List Hash) :
    ∀ (l₁ rest : List CBlockHeader) (last : Hash) (cache : HeaderCache) (avail : List Hash),
    contiguousB index last l₁ = true →
    headersScanLoop adjTime tNow maxUnconn index (l₁ ++ rest) last false cache avail
      = headersScanLoop adjTime tNow maxUnconn index rest (endHash last l₁) false cache avail := by
  intro l₁
  induction l₁ with
  | nil => intro rest last cache avail _; rfl
  | cons h t ih =>
      intro rest last cache avail hcont
      simp only [contiguousB, Bool.and_eq_true, decide_eq_true_eq] at hcont
      obtain ⟨h1, h2⟩ := hcont
      simp only [List.cons_append, headersScanLoop]
      rw [if_neg (fun hc => hc.1 h1)]
      have hf : (false || decide (h.hashPrevBlock ≠ scanStep index last h)) = false := by
        simp [h1]
      rw [hf]
      exact ih rest h.hashSelf cache avail h2

/-- Helper: once `fNewUnconnectedHeaders` is set and no out-of-order header
is old, the walk completes, keeps the flag, and records availability for
every remaining header in order. -/
theorem scanLoop_true_shape (adjTime tNow : Int) (maxUnconn : Nat) (index : List Hash) :
    ∀ (l : List CBlockHeader) (last : Hash) (cache : HeaderCache) (avail : List Hash),
    noOldBreakB index adjTime last l = true →
    (headersScanLoop adjTime tNow maxUnconn index l last true cache avail).disconnect = false ∧
      (headersScanLoop adjTime tNow maxUnconn index l last true cache avail).fNew = true ∧
      (headersScanLoop adjTime tNow maxUnconn index l last true cache avail).avail
        = avail ++ l.map (fun h => h.hashSelf) := by
  intro l
  induction l with
  | nil => intro last cache avail _; simp [headersScanLoop]
  | cons h t ih =>
      intro last cache avail hnob
      simp only [noOldBreakB, Bool.and_eq_true, decide_eq_true_eq] at hnob
      obtain ⟨h1, h2⟩ := hnob
      simp only [headersScanLoop]
      rw [if_neg (fun hc => h1.elim (fun he => hc.1 he) (fun hno => hno hc.2))]
      simp only [Bool.true_or, if_pos]
      have := ih h.hashSelf
        (if cache.length < maxUnconn then cacheInsert cache h.hashSelf (h, tNow) else cache)
        (avail ++ [h.hashSelf]) h2
      refine ⟨this.1, this.2.1, ?_⟩
      rw [this.2.2, List.append_assoc]
      rfl

/-- Helper: the walk never disturbs cache entries whose key is not among
the remaining headers. -/
theorem scanLoop_cache_preserve (adjTime tNow : Int) (maxUnconn : Nat) (index : List Hash) :
    ∀ (l : List CBlockHeader) (last : Hash) (fNew : Bool) (cache : HeaderCache)
      (avail : List Hash) (k : Hash) (v : CBlockHeader × Int),
    assocLookup k cache = some v → k ∉ l.map (fun h => h.hashSelf) →
    assocLookup k (headersScanLoop adjTime tNow maxUnconn index l last fNew cache avail).cache
      = some v := by
  intro l
  induction l with
  | nil => intro last fNew cache avail k v hv _; simpa [headersScanLoop] using hv
  | cons h t ih =>
      intro last fNew cache avail k v hv hk
      have hkh : k ≠ h.hashSelf := fun hc => hk (by simp [hc])
      have hkt : k ∉ t.map (fun h => h.hashSelf) := fun hc => hk (by simp [hc])
      simp only [headersScanLoop]
      split
      · simpa using hv
      · apply ih
        · split
          · split
            · rw [lookup_cacheInsert_ne _ _ _ _ hkh]
              exact hv
            · exact hv
          · exact hv
        · exact hkt

/-- Helper: with the flag set, capacity available and pairwise distinct
hashes, every remaining header lands in the cache with the arrival time. -/
theorem scanLoop_cache_insert (adjTime tNow : Int) (maxUnconn : Nat) (index : List Hash) :
    ∀ (l : List CBlockHeader) (last : Hash) (cache : HeaderCache) (avail : List Hash),
    noOldBreakB index adjTime last l = true →
    cache.length + l.length ≤ maxUnconn →
    (l.map (fun h => h.hashSelf)).Nodup →
    ∀ h ∈ l,
      assocLookup h.hashSelf
        (headersScanLoop adjTime tNow maxUnconn index l last true cache avail).cache
        = some (h, tNow) := by
  intro l
  induction l with
  | nil => intro last cache avail _ _ _ h hmem; simp at hmem
  | cons hd t ih =>
      intro last cache avail hnob hcap hnd h hmem
      simp only [noOldBreakB, Bool.and_eq_true, decide_eq_true_eq] at hnob
      obtain ⟨h1, h2⟩ := hnob
      have hroom : cache.length < maxUnconn := by
        simp only [List.length_cons] at hcap
        omega
      simp only [headersScanLoop]
      rw [if_neg (fun hc => h1.elim (fun he => hc.1 he) (fun hno => hno hc.2))]
      simp only [Bool.true_or, if_pos, if_pos hroom]
      have hnd' : hd.hashSelf ∉ t.map (fun h => h.hashSelf) ∧
          (t.map (fun h => h.hashSelf)).Nodup := by
        rw [List.map_cons, List.nodup_cons] at hnd
        exact hnd
      rcases List.mem_cons.mp hmem with hh | hh
      · subst hh
        apply scanLoop_cache_preserve
        · exact lookup_cacheInsert_self cache h.hashSelf (h, tNow)
        · exact hnd'.1
      · have hcap' : (cacheInsert cache hd.hashSelf (hd, tNow)).length + t.length ≤ maxUnconn := by
          have := cacheInsert_length cache hd.hashSelf (hd, tNow)
          simp only [List.length_cons] at hcap
          omega
        exact ih hd.hashSelf _ _ h2 hcap' hnd'.2 h hh

/-- **C1, amended.** For a headers message made of a contiguous prefix
followed by a discontinuity: if the out-of-order header is older than
adjusted time minus one day the peer is disconnected and the handler fails
— regardless of initial-sync state; otherwise (no out-of-order header in
the rest being old either) every header from the discontinuity onward is
placed in the unconnected-header cache keyed by hash with its arrival time
(the cache being below its cap), block availability is updated for exactly
those hashes, and the handler returns success without accepting any
header. -/
theorem headers_unconnected_cache (ibd : Bool) (index : List Hash) (cache₀ : HeaderCache)
    (adjTime tNow : Int) (maxUnconn : Nat) (timeout : Int)
    (acceptFn : CBlockHeader → AcceptResult)
    (l₁ : List CBlockHeader) (hd : CBlockHeader) (l₂ : List CBlockHeader)
    (r : HeadersResult)
    (hr : r = processHeadersMessage ibd index cache₀ adjTime tNow maxUnconn timeout acceptFn
      (l₁ ++ hd :: l₂))
    (hlen : (l₁ ++ hd :: l₂).length ≤ MAX_HEADERS_RESULTS)
    (hcont : contiguousB index 0 l₁ = true)
    (hdisc : hd.hashPrevBlock ≠ scanStep index (endHash 0 l₁) hd)
    (hcap : cache₀.length + (hd :: l₂).length ≤ maxUnconn)
    (hnd : ((hd :: l₂).map (fun h => h.hashSelf)).Nodup) :
    (hd.nTime < adjTime - 24 * 60 * 60 →
      r.fDisconnect = true ∧ r.ok = false) ∧
    (¬ (hd.nTime < adjTime - 24 * 60 * 60) →
      noOldBreakB index adjTime hd.hashSelf l₂ = true →
      r.ok = true ∧ r.fDisconnect = false ∧ r.acceptedCount = 0 ∧ r.misbehavior = 0 ∧
      r.availUpdates = (hd :: l₂).map (fun h => h.hashSelf) ∧
      (∀ h ∈ hd :: l₂, assocLookup h.hashSelf r.cache = some (h, tNow))) := by
  subst hr
  have hgate1 : ¬ ((l₁ ++ hd :: l₂).length > MAX_HEADERS_RESULTS) := Nat.not_lt.mpr hlen
  have hgate0 : ¬ ((l₁ ++ hd :: l₂).length = 0) := by simp
  constructor
  · intro hold
    have hsA : headersScanLoop adjTime tNow maxUnconn index (l₁ ++ hd :: l₂) 0 false cache₀ []
        = ⟨true, false, cache₀, []⟩ := by
      rw [scanLoop_contiguous adjTime tNow maxUnconn index l₁ (hd :: l₂) 0 cache₀ [] hcont]
      simp only [headersScanLoop]
      rw [if_pos ⟨hdisc, hold⟩]
    have hres : processHeadersMessage ibd index cache₀ adjTime tNow maxUnconn timeout acceptFn
        (l₁ ++ hd :: l₂) =
        ⟨false, true, 0, cache₀, [], 0, none, (l₁ ++ hd :: l₂).length,
          false, false, false⟩ := by
      simp only [processHeadersMessage]
      rw [if_neg hgate1, if_neg hgate0, hsA]
      rfl
    rw [hres]
    exact ⟨rfl, rfl⟩
  · intro hnold hnob
    have hroom : cache₀.length < maxUnconn := by
      simp only [List.length_cons] at hcap
      omega
    have hnd' : hd.hashSelf ∉ l₂.map (fun h => h.hashSelf) ∧
        (l₂.map (fun h => h.hashSelf)).Nodup := by
      rw [List.map_cons, List.nodup_cons] at hnd
      exact hnd
    have hred : headersScanLoop adjTime tNow maxUnconn index (l₁ ++ hd :: l₂) 0 false cache₀ []
        = headersScanLoop adjTime tNow maxUnconn index l₂ hd.hashSelf true
            (cacheInsert cache₀ hd.hashSelf (hd, tNow)) [hd.hashSelf] := by
      rw [scanLoop_contiguous adjTime tNow maxUnconn index l₁ (hd :: l₂) 0 cache₀ [] hcont]
      simp only [headersScanLoop]
      rw [if_neg (fun hc => hnold hc.2)]
      have hdec : decide (hd.hashPrevBlock ≠ scanStep index (endHash 0 l₁) hd) = true :=
        decide_eq_true hdisc
      rw [hdec]
      simp [hroom]
    have hshape := scanLoop_true_shape adjTime tNow maxUnconn index l₂ hd.hashSelf
      (cacheInsert cache₀ hd.hashSelf (hd, tNow)) [hd.hashSelf] hnob
    have hres : processHeadersMessage ibd index cache₀ adjTime tNow maxUnconn timeout acceptFn
        (l₁ ++ hd :: l₂) =
        ⟨true, false, 0,
          (headersScanLoop adjTime tNow maxUnconn index l₂ hd.hashSelf true
            (cacheInsert cache₀ hd.hashSelf (hd, tNow)) [hd.hashSelf]).cache,
          (headersScanLoop adjTime tNow maxUnconn index l₂ hd.hashSelf true
            (cacheInsert cache₀ hd.hashSelf (hd, tNow)) [hd.hashSelf]).avail,
          0, none, (l₁ ++ hd :: l₂).length, false, false, false⟩ := by
      simp only [processHeadersMessage]
      rw [if_neg hgate1, if_neg hgate0, hred]
      simp [hshape.1, hshape.2.1]
    rw [hres]
    refine ⟨rfl, rfl, rfl, rfl, ?_, ?_⟩
    · rw [hshape.2.2]
      simp
    · intro h hmem
      rcases List.mem_cons.mp hmem with hh | hh
      · subst hh
        exact scanLoop_cache_preserve adjTime tNow maxUnconn index l₂ h.hashSelf true
          (cacheInsert cache₀ h.hashSelf (h, tNow)) [h.hashSelf] h.hashSelf (h, tNow)
          (lookup_cacheInsert_self cache₀ h.hashSelf (h, tNow)) hnd'.1
      · have hcap' : (cacheInsert cache₀ hd.hashSelf (hd, tNow)).length + l₂.length
            ≤ maxUnconn := by
          have := cacheInsert_length cache₀ hd.hashSelf (hd, tNow)
          simp only [List.length_cons] at hcap
          omega
        exact scanLoop_cache_insert adjTime tNow maxUnconn index l₂ hd.hashSelf
          (cacheInsert cache₀ hd.hashSelf (hd, tNow)) [hd.hashSelf] hnob hcap' hnd'.2 h hh

/-- Witness for `headers_unconnected_cache`: a two-header message whose
first header does not connect; both land in the cache, availability is
updated for both, and the handler succeeds without accepting anything. -/
theorem headers_unconnected_cache_test :
    (processHeadersMessage false [] [] 0 5 10 60 cornerAccept
        [⟨5, 7, 100⟩, ⟨7, 8, 100⟩]).ok = true ∧
      (processHeadersMessage false [] [] 0 5 10 60 cornerAccept
        [⟨5, 7, 100⟩, ⟨7, 8, 100⟩]).acceptedCount = 0 ∧
      (processHeadersMessage false [] [] 0 5 10 60 cornerAccept
        [⟨5, 7, 100⟩, ⟨7, 8, 100⟩]).availUpdates = [7, 8] ∧
      assocLookup 7 (processHeadersMessage false [] [] 0 5 10 60 cornerAccept
        [⟨5, 7, 100⟩, ⟨7, 8, 100⟩]).cache = some (⟨5, 7, 100⟩, 5) ∧
      assocLookup 8 (processHeadersMessage false [] [] 0 5 10 60 cornerAccept
        [⟨5, 7, 100⟩, ⟨7, 8, 100⟩]).cache = some (⟨7, 8, 100⟩, 5) := by
  have h := headers_unconnected_cache false [] [] 0 5 10 60 cornerAccept
    [] ⟨5, 7, 100⟩ [⟨7, 8, 100⟩] _ rfl (by decide) rfl (by decide) (by decide) (by decide)
  have h2 := h.2 (by decide) (by decide)
  exact ⟨h2.1, h2.2.2.1, h2.2.2.2.2.1, h2.2.2.2.2.2 ⟨5, 7, 100⟩ (by simp),
    h2.2.2.2.2.2 ⟨7, 8, 100⟩ (by simp)⟩

/-- Helper: one extension-loop iteration that finds a match. -/
theorem extendLoop_step_ok (tNow timeout : Int) (fuel f' : Nat) (hf : fuel = f' + 1)
    (hs : List CBlockHeader) (cache : HeaderCache) (hdr : CBlockHeader) (cache' : HeaderCache)
    (h : extendScanOnce tNow timeout hs [] cache = Except.ok (hdr, cache')) :
    extendLoop tNow timeout fuel hs cache
      = extendLoop tNow timeout f' (hs ++ [hdr]) cache' := by
  subst hf
  rw [extendLoop, h]

/-- Helper: one extension-loop iteration that finds no match. -/
theorem extendLoop_step_err (tNow timeout : Int) (fuel f' : Nat) (hf : fuel = f' + 1)
    (hs : List CBlockHeader) (cache : HeaderCache) (cache' : HeaderCache)
    (h : extendScanOnce tNow timeout hs [] cache = Except.error cache') :
    extendLoop tNow timeout fuel hs cache = (hs, cache') := by
  subst hf
  rw [extendLoop, h]

/-- Helper: the extension loop only appends to the headers. -/
theorem extendLoop_prefix (tNow timeout : Int) :
    ∀ (fuel : Nat) (hs : List CBlockHeader) (cache : HeaderCache),
    ∃ ext, (extendLoop tNow timeout fuel hs cache).1 = hs ++ ext := by
  intro fuel
  induction fuel with
  | zero => intro hs cache; exact ⟨[], (List.append_nil hs).symm⟩
  | succ n ih =>
      intro hs cache
      simp only [extendLoop]
      cases hscan : extendScanOnce tNow timeout hs [] cache with
      | error c => exact ⟨[], (List.append_nil hs).symm⟩
      | ok p =>
          obtain ⟨hdr, c'⟩ := p
          obtain ⟨ext, hext⟩ := ih (hs ++ [hdr]) c'
          refine ⟨[hdr] ++ ext, ?_⟩
          rw [hext, List.append_assoc]

/-- Helper: when every header is accepted, the loop accepts them all, with
the last accepted index present whenever the list is non-empty. -/
theorem acceptLoop_all (acceptFn : CBlockHeader → AcceptResult) :
    ∀ (l : List CBlockHeader) (cnt : Nat) (last : Option Hash),
    (∀ h ∈ l, ∃ idx, acceptFn h = AcceptResult.accepted idx) →
    (acceptLoopGo acceptFn l cnt last).nAccepted = cnt + l.length ∧
      (acceptLoopGo acceptFn l cnt last).dos = 0 ∧
      (acceptLoopGo acceptFn l cnt last).truncated = false ∧
      (l = [] → (acceptLoopGo acceptFn l cnt last).pindexLast = last) ∧
      (l ≠ [] → (acceptLoopGo acceptFn l cnt last).pindexLast.isSome = true) := by
  intro l
  induction l with
  | nil =>
      intro cnt last _
      exact ⟨by simp [acceptLoopGo], rfl, rfl, fun _ => rfl, fun hc => absurd rfl hc⟩
  | cons h t ih =>
      intro cnt last hall
      obtain ⟨idx, hidx⟩ := hall h (List.mem_cons_self _ _)
      simp only [acceptLoopGo, hidx]
      have hrest := ih (cnt + 1) (some idx)
        (fun h' hm => hall h' (List.mem_cons_of_mem _ hm))
      refine ⟨?_, hrest.2.1, hrest.2.2.1, fun hc => by simp at hc, fun _ => ?_⟩
      · rw [hrest.1]
        simp only [List.length_cons]
        omega
      · by_cases htn : t = []
        · subst htn
          rw [hrest.2.2.2.1 rfl]
          rfl
        · exact hrest.2.2.2.2 htn

/-- Helper: a rejection truncates the loop right there, after accepting
exactly the prefix. -/
theorem acceptLoop_split (acceptFn : CBlockHeader → AcceptResult) :
    ∀ (l₁ : List CBlockHeader) (hd : CBlockHeader) (rest : List CBlockHeader)
      (cnt : Nat) (last : Option Hash) (st : Option Nat),
    (∀ h ∈ l₁, ∃ idx, acceptFn h = AcceptResult.accepted idx) →
    acceptFn hd = AcceptResult.rejected st →
    (acceptLoopGo acceptFn (l₁ ++ hd :: rest) cnt last).nAccepted = cnt + l₁.length ∧
      (acceptLoopGo acceptFn (l₁ ++ hd :: rest) cnt last).truncated = true ∧
      (l₁ ≠ [] →
        (acceptLoopGo acceptFn (l₁ ++ hd :: rest) cnt last).pindexLast.isSome = true) ∧
      (l₁ = [] → (acceptLoopGo acceptFn (l₁ ++ hd :: rest) cnt last).pindexLast = last) := by
  intro l₁
  induction l₁ with
  | nil =>
      intro hd rest cnt last st _ hfail
      simp [List.nil_append, acceptLoopGo, hfail]
  | cons h t ih =>
      intro hd rest cnt last st hall hfail
      obtain ⟨idx, hidx⟩ := hall h (List.mem_cons_self _ _)
      simp only [List.cons_append, acceptLoopGo, hidx]
      have hrest := ih hd rest (cnt + 1) (some idx) st
        (fun h' hm => hall h' (List.mem_cons_of_mem _ hm)) hfail
      refine ⟨?_, hrest.2.1, fun _ => ?_, fun hc => by simp at hc⟩
      · exact hrest.1.trans (by simp only [List.length_cons]; omega)
      · by_cases htn : t = []
        · subst htn
          exact (congrArg Option.isSome (hrest.2.2.2 rfl)).trans rfl
        · exact hrest.2.2.1 htn

/-- Helper: when the continuity walk is clean, the HEADERS branch reduces
to extension plus acceptance, and the follow-up decision is exactly
"final count = MAX_HEADERS_RESULTS and the tail was accepted". -/
theorem processHeaders_accept_fields (ibd : Bool) (index : List Hash) (cache₀ : HeaderCache)
    (adjTime tNow : Int) (maxUnconn : Nat) (timeout : Int)
    (acceptFn : CBlockHeader → AcceptResult) (l : List CBlockHeader)
    (hne : l ≠ []) (hlen : l.length ≤ MAX_HEADERS_RESULTS)
    (hcont : contiguousB index 0 l = true) :
    (processHeadersMessage ibd index cache₀ adjTime tNow maxUnconn timeout acceptFn
        l).sentGetHeaders
      = decide ((if (acceptLoopGo acceptFn
            (extendLoop tNow timeout (cache₀.length + 1) l cache₀).1 0 none).truncated then
              (acceptLoopGo acceptFn
                (extendLoop tNow timeout (cache₀.length + 1) l cache₀).1 0 none).nAccepted
            else l.length) = MAX_HEADERS_RESULTS ∧
          (acceptLoopGo acceptFn
            (extendLoop tNow timeout (cache₀.length + 1) l cache₀).1 0
              none).pindexLast.isSome = true) ∧
    (processHeadersMessage ibd index cache₀ adjTime tNow maxUnconn timeout acceptFn
        l).syncStartReset
      = (processHeadersMessage ibd index cache₀ adjTime tNow maxUnconn timeout acceptFn
        l).sentGetHeaders := by
  have hgate1 : ¬ (l.length > MAX_HEADERS_RESULTS) := Nat.not_lt.mpr hlen
  have hgate0 : ¬ (l.length = 0) := by
    intro hc
    exact hne (List.length_eq_zero.mp hc)
  have hs0 : headersScanLoop adjTime tNow maxUnconn index l 0 false cache₀ []
      = ⟨false, false, cache₀, []⟩ := by
    conv_lhs => rw [← List.append_nil l]
    rw [scanLoop_contiguous adjTime tNow maxUnconn index l [] 0 cache₀ [] hcont]
    rfl
  constructor
  · simp only [processHeadersMessage]
    rw [if_neg hgate1, if_neg hgate0, hs0]
    rfl
  · simp only [processHeadersMessage]
    rw [if_neg hgate1, if_neg hgate0, hs0]
    rfl

/-- **C5, amended.** When the continuity walk is clean and every header of
the (cache-extended) batch is accepted: a message with exactly 2000 entries
triggers the immediate follow-up `getheaders` and the sync-timer reset, and
a message with 1999 entries does not.  (When acceptance truncates the
extended batch to exactly 2000, the follow-up fires even for a smaller
message — see the counterexample.) -/
theorem headers_full_batch_followup (ibd : Bool) (index : List Hash) (cache₀ : HeaderCache)
    (adjTime tNow : Int) (maxUnconn : Nat) (timeout : Int)
    (acceptFn : CBlockHeader → AcceptResult) (l : List CBlockHeader) (r : HeadersResult)
    (hr : r = processHeadersMessage ibd index cache₀ adjTime tNow maxUnconn timeout acceptFn l)
    (hlen : l.length ≤ MAX_HEADERS_RESULTS)
    (hcont : contiguousB index 0 l = true)
    (hacc : ∀ h ∈ (extendLoop tNow timeout (cache₀.length + 1) l cache₀).1,
      ∃ idx, acceptFn h = AcceptResult.accepted idx) :
    (l.length = MAX_HEADERS_RESULTS →
      r.sentGetHeaders = true ∧ r.syncStartReset = true) ∧
    (l.length = 1999 → r.sentGetHeaders = false) := by
  subst hr
  by_cases hnil : l = []
  · subst hnil
    exact ⟨fun hc => absurd hc (by decide), fun hc => absurd hc (by decide)⟩
  · have hfields := processHeaders_accept_fields ibd index cache₀ adjTime tNow maxUnconn
      timeout acceptFn l hnil hlen hcont
    have hall := acceptLoop_all acceptFn
      (extendLoop tNow timeout (cache₀.length + 1) l cache₀).1 0 none hacc
    obtain ⟨ext, hext⟩ := extendLoop_prefix tNow timeout (cache₀.length + 1) l cache₀
    have hne1 : (extendLoop tNow timeout (cache₀.length + 1) l cache₀).1 ≠ [] := by
      rw [hext]
      simp [hnil]
    have hsome := hall.2.2.2.2 hne1
    constructor
    · intro h2000
      have hsent : (processHeadersMessage ibd index cache₀ adjTime tNow maxUnconn timeout
          acceptFn l).sentGetHeaders = true := by
        rw [hfields.1, hall.2.2.1]
        simp [h2000, hsome]
      exact ⟨hsent, by rw [hfields.2, hsent]⟩
    · intro h1999
      rw [hfields.1, hall.2.2.1]
      simp [h1999, MAX_HEADERS_RESULTS]

/-- Helper: length of a generated chain. -/
theorem chainFrom_length : ∀ (n s : Nat), (chainFrom s n).length = n := by
  intro n
  induction n with
  | zero => intro s; rfl
  | succ m ih => intro s; simp [chainFrom, ih (s + 1)]

/-- Helper: a generated chain starting at a positive height is contiguous
under the scan discipline. -/
theorem chainFrom_contiguous_pos : ∀ (n s : Nat), 0 < s →
    contiguousB [0] s (chainFrom s n) = true := by
  intro n
  induction n with
  | zero => intro s _; rfl
  | succ m ih =>
      intro s hs
      have hsne : ¬ (s = 0) := by omega
      simp only [chainFrom, contiguousB, Bool.and_eq_true, decide_eq_true_eq]
      exact ⟨by simp [scanStep, hsne], ih (s + 1) (by omega)⟩

/-- Helper: a generated chain starting at genesis (prev hash 0, with 0 in
the block index) is contiguous. -/
theorem chainFrom_contiguous_zero (n : Nat) :
    contiguousB [0] 0 (chainFrom 0 n) = true := by
  cases n with
  | zero => rfl
  | succ m =>
      simp only [chainFrom, contiguousB, Bool.and_eq_true, decide_eq_true_eq]
      exact ⟨by simp [scanStep], chainFrom_contiguous_pos m 1 (by omega)⟩

/-- Helper: shape of the members of a generated chain. -/
theorem chainFrom_mem : ∀ (n s : Nat) (h : CBlockHeader), h ∈ chainFrom s n →
    ∃ k : Nat, h = ⟨k, k + 1, 50⟩ ∧ s ≤ k ∧ k < s + n := by
  intro n
  induction n with
  | zero => intro s h hm; simp [chainFrom] at hm
  | succ m ih =>
      intro s h hm
      rcases List.mem_cons.mp hm with hh | hh
      · refine ⟨s, hh, Nat.le_refl s, ?_⟩
        omega
      · obtain ⟨k, hk, hk1, hk2⟩ := ih (s + 1) h hh
        refine ⟨k, hk, ?_, ?_⟩
        · omega
        · omega

/-- Helper: the last element of a non-empty generated chain. -/
theorem chainFrom_getLastD : ∀ (n s : Nat) (d : CBlockHeader), 0 < n →
    (chainFrom s n).getLastD d = ⟨s + n - 1, s + n, 50⟩ := by
  intro n
  induction n with
  | zero => intro s d h; omega
  | succ m ih =>
      intro s d _
      cases m with
      | zero => simp [chainFrom, List.getLastD]
      | succ m' =>
          show ((⟨s, s + 1, 50⟩ : CBlockHeader) :: chainFrom (s + 1) (m' + 1)).getLastD d = _
          rw [List.getLastD_cons, ih (s + 1) _ (by omega)]
          simp only [CBlockHeader.mk.injEq]
          refine ⟨?_, ?_, trivial⟩
          · show s + 1 + (m' + 1) - 1 = s + (m' + 1 + 1) - 1
            omega
          · show s + 1 + (m' + 1) = s + (m' + 1 + 1)
            omega

/-- Witness for `headers_full_batch_followup`: a clean 2000-header chain
with an empty cache, all accepted; the follow-up getheaders fires and the
sync timer is reset. -/
theorem headers_full_batch_followup_test :
    (processHeadersMessage false [0] [] 0 0 0 60 cornerAccept
        (chainFrom 0 2000)).sentGetHeaders = true ∧
      (processHeadersMessage false [0] [] 0 0 0 60 cornerAccept
        (chainFrom 0 2000)).syncStartReset = true := by
  have hext : extendLoop 0 60 (([] : HeaderCache).length + 1) (chainFrom 0 2000) [] =
      (chainFrom 0 2000, []) := rfl
  have h := headers_full_batch_followup false [0] [] 0 0 0 60 cornerAccept
    (chainFrom 0 2000) _ rfl
    (by rw [chainFrom_length]; decide)
    (chainFrom_contiguous_zero 2000)
    (by
      rw [hext]
      intro h hm
      obtain ⟨k, hk, _, hk2⟩ := chainFrom_mem 2000 0 h hm
      subst hk
      refine ⟨k + 1, ?_⟩
      have hle : k + 1 ≤ 2000 := by omega
      simp only [cornerAccept]
      rw [if_pos hle])
  exact h.1 (chainFrom_length 2000 0)

/-- **C5, counterexample.** A headers message with 1999 entries can
trigger the follow-up getheaders: two cached unconnected headers extend the
batch to 2001, acceptance fails on the last one and truncates the batch to
exactly 2000, so `nCount == MAX_HEADERS_RESULTS` holds and the follow-up is
sent, contradicting the claim that 1999 entries never trigger it. -/
theorem headers_batch_claim_false : ¬ headersBatchClaimAsStated := by
  intro hclaim
  have hinst := hclaim false [0] cornerCache 0 0 0 60 cornerAccept (chainFrom 0 1999) _ rfl
  have hfalse := hinst.2 (chainFrom_length 1999 0)
  -- now compute the actual value: the follow-up fires
  have hne : chainFrom 0 1999 ≠ [] := by
    intro hc
    have hl := chainFrom_length 1999 0
    rw [hc] at hl
    simp at hl
  have hfields := processHeaders_accept_fields false [0] cornerCache 0 0 0 60 cornerAccept
    (chainFrom 0 1999) hne (by rw [chainFrom_length]; decide)
    (chainFrom_contiguous_zero 1999)
  have hgl : (chainFrom 0 1999).getLastD ⟨0, 0, 0⟩ = ⟨1998, 1999, 50⟩ :=
    (chainFrom_getLastD 1999 0 ⟨0, 0, 0⟩ (by omega)).trans (by norm_num)
  have hs1 : extendScanOnce 0 60 (chainFrom 0 1999) [] cornerCache
      = Except.ok (⟨1999, 2000, 50⟩, [(2001, ⟨2000, 2001, 50⟩, 0)]) := by
    simp only [cornerCache, extendScanOnce, hgl]
    simp
  have hs2 : extendScanOnce 0 60 (chainFrom 0 1999 ++ [⟨1999, 2000, 50⟩]) []
      [(2001, ⟨2000, 2001, 50⟩, 0)] = Except.ok (⟨2000, 2001, 50⟩, []) := by
    simp only [extendScanOnce, List.getLastD_concat]
    simp
  have e1 : extendLoop 0 60 (cornerCache.length + 1) (chainFrom 0 1999) cornerCache
      = extendLoop 0 60 2 (chainFrom 0 1999 ++ [⟨1999, 2000, 50⟩])
          [(2001, ⟨2000, 2001, 50⟩, 0)] :=
    extendLoop_step_ok 0 60 _ 2 rfl _ _ _ _ hs1
  have e2 : extendLoop 0 60 2 (chainFrom 0 1999 ++ [⟨1999, 2000, 50⟩])
        [(2001, ⟨2000, 2001, 50⟩, 0)]
      = extendLoop 0 60 1 ((chainFrom 0 1999 ++ [⟨1999, 2000, 50⟩]) ++ [⟨2000, 2001, 50⟩])
          [] :=
    extendLoop_step_ok 0 60 2 1 rfl _ _ _ _ hs2
  have e3 : extendLoop 0 60 1 ((chainFrom 0 1999 ++ [⟨1999, 2000, 50⟩]) ++ [⟨2000, 2001, 50⟩])
        []
      = ((chainFrom 0 1999 ++ [⟨1999, 2000, 50⟩]) ++ [⟨2000, 2001, 50⟩], []) :=
    extendLoop_step_err 0 60 1 0 rfl _ _ _ rfl
  have hextLoop : extendLoop 0 60 (cornerCache.length + 1) (chainFrom 0 1999) cornerCache
      = ((chainFrom 0 1999 ++ [⟨1999, 2000, 50⟩]) ++ [⟨2000, 2001, 50⟩], []) :=
    (e1.trans e2).trans e3
  have hacc1 : ∀ h ∈ chainFrom 0 1999 ++ [⟨1999, 2000, 50⟩],
      ∃ idx, cornerAccept h = AcceptResult.accepted idx := by
    intro h hm
    rcases List.mem_append.mp hm with hm | hm
    · obtain ⟨k, hk, _, hk2⟩ := chainFrom_mem 1999 0 h hm
      subst hk
      refine ⟨k + 1, ?_⟩
      have hle : k + 1 ≤ 2000 := by omega
      simp only [cornerAccept]
      rw [if_pos hle]
    · rw [List.mem_singleton.mp hm]
      refine ⟨2000, ?_⟩
      decide
  have hsplit := acceptLoop_split cornerAccept (chainFrom 0 1999 ++ [⟨1999, 2000, 50⟩])
    (⟨2000, 2001, 50⟩ : CBlockHeader) [] 0 none (some 0) hacc1 (by decide)
  have hlenp : (chainFrom 0 1999 ++ [(⟨1999, 2000, 50⟩ : CBlockHeader)]).length = 2000 := by
    rw [List.length_append, chainFrom_length]
    rfl
  have hpne : chainFrom 0 1999 ++ [⟨1999, 2000, 50⟩] ≠ [] := by simp
  have htrue : (processHeadersMessage false [0] cornerCache 0 0 0 60 cornerAccept
      (chainFrom 0 1999)).sentGetHeaders = true := by
    rw [hfields.1, hextLoop]
    rw [show ((chainFrom 0 1999 ++ [⟨1999, 2000, 50⟩]) ++ [⟨2000, 2001, 50⟩],
        ([] : HeaderCache)).1 = (chainFrom 0 1999 ++ [⟨1999, 2000, 50⟩]) ++
        ⟨2000, 2001, 50⟩ :: [] from rfl]
    rw [hsplit.1, hsplit.2.1, hsplit.2.2.1 hpne, hlenp]
    simp [MAX_HEADERS_RESULTS]
  exact absurd (hfalse.symm.trans htrue) (by decide)

/-- **C1, counterexample.** The one-day disconnect does not depend on the
initial-sync state: outside initial sync (ibd = false), a single
unconnectable header older than a day still disconnects with failure, where
the claim as stated demands success and caching. -/
theorem headers_ibd_claim_false : ¬ headersClaimAsStated := by
  intro h
  have h1 := h false [] [] 1000000 0 10 60 cornerAccept [] ⟨5, 7, 0⟩ []
    _ rfl (by decide) rfl (by decide) (by decide) (by decide)
  have h2 := h1.2 (by simp)
  exact absurd h2.1 (by decide)

end BUnet
